import Mathlib

/-!
Verification of the row-batch wire codec (common/wire_protocol.cc):
status conversion to and from the wire representation, schema conversion,
and the row-block encode/decode path.

The embedding is byte-level: buffers are lists of natural numbers
(each byte being a value below 256), and the fixed 8-byte integer fields
of a reference descriptor are read and written little-endian.
Collaborator code that is declared outside the translated file
(the Status class, Schema::Reset, ContiguousRowHelper, Slice,
AddWithOverflowCheck) is modelled from the spec, as marked on each
definition.
-/

deriving instance DecidableEq for Except

namespace KuduWire

/-- Column data types appearing in the wire protocol model.  The type
catalog is an external collaborator; the codec only consumes the byte
width and the fixed-width versus variable-length classification, so two
representative types suffice: STRING (variable length, slot holds a
16-byte reference descriptor) and UINT32 (fixed width, 4 bytes). -/
inductive DataType
  | STRING
  | UINT32
deriving DecidableEq, Repr

/-- Modelled from the spec: per-type slot width from the external type
catalog.  A variable-length slot holds an 8-byte offset plus an 8-byte
length (sizeof(Slice) on the wire), a UINT32 holds 4 inline bytes. -/
def typeSize : DataType → Nat
  | .STRING => 16
  | .UINT32 => 4

/-- Modelled from the spec: printable name of a type, used in column
descriptions inside error messages. -/
def typeName : DataType → String
  | .STRING => "string"
  | .UINT32 => "uint32"

/-- One column: name, type and nullability (common/schema.h collaborator,
modelled from the spec data model). -/
structure ColumnSchema where
  name : String
  type : DataType
  is_nullable : Bool
deriving DecidableEq, Repr

/-- Modelled from the spec: ColumnSchema::ToString, the column
description used in decoder error messages; it names the column. -/
def ColumnSchema.toStr (c : ColumnSchema) : String :=
  c.name ++ " " ++ typeName c.type

/-- A table schema: ordered columns plus the count of leading key
columns (common/schema.h collaborator, modelled from the spec data
model). -/
structure Schema where
  columns : List ColumnSchema
  num_key_columns : Nat
deriving DecidableEq, Repr

/-- Status kinds of the internal error-result type (util/status.h
collaborator, modelled from the spec). -/
inductive StatusKind
  | ok
  | notFound
  | corruption
  | notSupported
  | invalidArgument
  | ioError
  | alreadyPresent
  | runtimeError
  | networkError
deriving DecidableEq, Repr

/-- The internal error-result value: kind, combined message and posix
code (util/status.h collaborator, modelled from the spec). -/
structure Status where
  kind : StatusKind
  msg : String
  posix : Int
deriving DecidableEq, Repr

/-- Modelled from the spec: a Status combines its two message parts with
a separating colon, the second part being optional. -/
def combineMsg (m m2 : String) : String :=
  if m2 = "" then m else m ++ ": " ++ m2

def Status.OK : Status := ⟨.ok, "", -1⟩

def Status.NotFound (m m2 : String) (posix : Int) : Status :=
  ⟨.notFound, combineMsg m m2, posix⟩

def Status.Corruption (m m2 : String) (posix : Int) : Status :=
  ⟨.corruption, combineMsg m m2, posix⟩

def Status.NotSupported (m m2 : String) (posix : Int) : Status :=
  ⟨.notSupported, combineMsg m m2, posix⟩

def Status.InvalidArgument (m m2 : String) (posix : Int) : Status :=
  ⟨.invalidArgument, combineMsg m m2, posix⟩

def Status.IOError (m m2 : String) (posix : Int) : Status :=
  ⟨.ioError, combineMsg m m2, posix⟩

def Status.AlreadyPresent (m m2 : String) (posix : Int) : Status :=
  ⟨.alreadyPresent, combineMsg m m2, posix⟩

def Status.RuntimeError (m m2 : String) (posix : Int) : Status :=
  ⟨.runtimeError, combineMsg m m2, posix⟩

def Status.NetworkError (m m2 : String) (posix : Int) : Status :=
  ⟨.networkError, combineMsg m m2, posix⟩

/-- Modelled from the spec: Status::CodeAsString, the printable name of
the status kind, prefixed into the message when an unrecognized kind is
sent as UNKNOWN_ERROR. -/
def Status.CodeAsString (s : Status) : String :=
  match s.kind with
  | .ok => "OK"
  | .notFound => "Not found"
  | .corruption => "Corruption"
  | .notSupported => "Not implemented"
  | .invalidArgument => "Invalid argument"
  | .ioError => "IO error"
  | .alreadyPresent => "Already present"
  | .runtimeError => "Runtime error"
  | .networkError => "Network error"

/-- Wire error code enum of AppStatusPB (wire_protocol.proto). -/
inductive ErrorCode
  | OK
  | NOT_FOUND
  | CORRUPTION
  | NOT_SUPPORTED
  | INVALID_ARGUMENT
  | IO_ERROR
  | ALREADY_PRESENT
  | RUNTIME_ERROR
  | NETWORK_ERROR
  | UNKNOWN_ERROR
deriving DecidableEq, Repr

/-- Wire status message: code plus optional message and posix code
(wire_protocol.proto). -/
structure AppStatusPB where
  code : ErrorCode
  message : Option String
  posix_code : Option Int
deriving DecidableEq, Repr

/-- Translation of StatusToPB (wire_protocol.cc lines 15-55): an OK
status carries no message or posix code; recognized kinds map to their
wire code with the bare message; any other kind maps to UNKNOWN_ERROR
with the stringified kind prefixed into the message. -/
def StatusToPB (status : Status) : AppStatusPB :=
  if status.kind = .ok then
    { code := .OK, message := none, posix_code := none }
  else
    let codeUnknown : ErrorCode × Bool :=
      if status.kind = .notFound then (.NOT_FOUND, false)
      else if status.kind = .corruption then (.CORRUPTION, false)
      else if status.kind = .notSupported then (.NOT_SUPPORTED, false)
      else if status.kind = .invalidArgument then (.INVALID_ARGUMENT, false)
      else if status.kind = .ioError then (.IO_ERROR, false)
      else if status.kind = .runtimeError then (.RUNTIME_ERROR, false)
      else if status.kind = .networkError then (.NETWORK_ERROR, false)
      else (.UNKNOWN_ERROR, true)
    { code := codeUnknown.1,
      message :=
        if codeUnknown.2 then some (status.CodeAsString ++ ": " ++ status.msg)
        else some status.msg,
      posix_code := if status.posix ≠ -1 then some status.posix else none }

/-- Translation of StatusFromPB (wire_protocol.cc lines 57-84): each
wire code maps back to its Status constructor; ALREADY_PRESENT is
decoded; UNKNOWN_ERROR (and the default branch) becomes a RuntimeError
tagged "(unknown error code)". -/
def StatusFromPB (pb : AppStatusPB) : Status :=
  let posix_code : Int := pb.posix_code.getD (-1)
  match pb.code with
  | .OK => Status.OK
  | .NOT_FOUND => Status.NotFound (pb.message.getD "") "" posix_code
  | .CORRUPTION => Status.Corruption (pb.message.getD "") "" posix_code
  | .NOT_SUPPORTED => Status.NotSupported (pb.message.getD "") "" posix_code
  | .INVALID_ARGUMENT => Status.InvalidArgument (pb.message.getD "") "" posix_code
  | .IO_ERROR => Status.IOError (pb.message.getD "") "" posix_code
  | .ALREADY_PRESENT => Status.AlreadyPresent (pb.message.getD "") "" posix_code
  | .RUNTIME_ERROR => Status.RuntimeError (pb.message.getD "") "" posix_code
  | .NETWORK_ERROR => Status.NetworkError (pb.message.getD "") "" posix_code
  | .UNKNOWN_ERROR => Status.RuntimeError "(unknown error code)" (pb.message.getD "") posix_code

/-- C10: StatusToPB has no branch for the AlreadyPresent status kind, so
an AlreadyPresent status is encoded as UNKNOWN_ERROR with its kind name
prefixed into the message, even though the wire enum defines
ALREADY_PRESENT and StatusFromPB decodes ALREADY_PRESENT into an
AlreadyPresent status; consequently the StatusToPB then StatusFromPB
round trip of an AlreadyPresent status yields a RuntimeError. -/
theorem C10_alreadyPresent_encodes_unknown (m : String) (p : Int) :
    (StatusToPB (Status.AlreadyPresent m "" p)).code = ErrorCode.UNKNOWN_ERROR ∧
    (StatusToPB (Status.AlreadyPresent m "" p)).message
      = some ("Already present: " ++ m) ∧
    StatusFromPB { code := .ALREADY_PRESENT, message := some m, posix_code := some p }
      = Status.AlreadyPresent m "" p ∧
    (StatusFromPB (StatusToPB (Status.AlreadyPresent m "" p))).kind
      = StatusKind.runtimeError := by
  refine ⟨rfl, ?_, ?_, rfl⟩
  · simp [StatusToPB, Status.AlreadyPresent, combineMsg, Status.CodeAsString]
  · simp [StatusFromPB, Status.AlreadyPresent, combineMsg]

/-- Wire representation of one column (ColumnSchemaPB in
wire_protocol.proto): name, type, key flag and nullability.  The proto
defaults of the two flags are false. -/
structure ColumnSchemaPB where
  name : String
  type : DataType
  is_key : Bool
  is_nullable : Bool
deriving DecidableEq, Repr

instance : Inhabited ColumnSchemaPB := ⟨⟨"", .UINT32, false, false⟩⟩

/-- Modelled from the spec: protobuf ShortDebugString of a column entry,
used as the detail text of the out-of-order key error; it names the
offending column. -/
def ColumnSchemaPB.shortDebugString (pb : ColumnSchemaPB) : String :=
  "name: \"" ++ pb.name ++ "\" type: " ++ typeName pb.type
    ++ " is_key: " ++ (if pb.is_key then "true" else "false")

/-- Translation of ColumnSchemaToPB (wire_protocol.cc lines 86-90):
copies name, type and nullability; is_key is left at its proto default
and set separately by SchemaToColumnPBs. -/
def ColumnSchemaToPB (col_schema : ColumnSchema) : ColumnSchemaPB :=
  { name := col_schema.name, type := col_schema.type,
    is_key := false, is_nullable := col_schema.is_nullable }

/-- Translation of ColumnSchemaFromPB (wire_protocol.cc lines 92-94). -/
def ColumnSchemaFromPB (pb : ColumnSchemaPB) : ColumnSchema :=
  { name := pb.name, type := pb.type, is_nullable := pb.is_nullable }

/-- Modelled from the spec: the first column name that occurs again
later in the list, if any.  Schema::Reset (common/schema.h, not under
the translated sources) detects duplicate names this way; the
wire-protocol test asserts that its message contains
"Duplicate name present". -/
def findDuplicateName : List String → Option String
  | [] => none
  | n :: rest => if rest.contains n then some n else findDuplicateName rest

/-- Modelled from the spec: Schema::Reset, the single validation gate of
schema construction (spec 4.2).  It rejects a key count larger than the
column count and any duplicated column name (invalid-argument naming the
duplicate), and otherwise commits the immutable schema. -/
def Schema.Reset (columns : List ColumnSchema) (num_key_columns : Nat) :
    Except Status Schema :=
  if columns.length < num_key_columns then
    .error (Status.InvalidArgument "Bad schema"
      "More key columns than columns" (-1))
  else
    match findDuplicateName (columns.map ColumnSchema.name) with
    | some n =>
        .error (Status.InvalidArgument
          ("Duplicate name present in schema: " ++ n) "" (-1))
    | none => .ok { columns := columns, num_key_columns := num_key_columns }

/-- Translation of the BOOST_FOREACH walk of ColumnPBsToSchema
(wire_protocol.cc lines 96-122): accumulates decoded columns, counts
key columns while is_handling_key holds, errors on a key column seen
after a non-key column, and finally hands the list to Schema::Reset. -/
def ColumnPBsToSchemaGo (pbs : List ColumnSchemaPB)
    (columns : List ColumnSchema) (num_key_columns : Nat)
    (is_handling_key : Bool) : Except Status Schema :=
  match pbs with
  | [] => Schema.Reset columns num_key_columns
  | pb :: rest =>
    let columns := columns ++ [ColumnSchemaFromPB pb]
    if pb.is_key then
      if !is_handling_key then
        .error (Status.InvalidArgument "Got out-of-order key column"
          pb.shortDebugString (-1))
      else
        ColumnPBsToSchemaGo rest columns (num_key_columns + 1) is_handling_key
    else
      ColumnPBsToSchemaGo rest columns num_key_columns false

/-- Translation of ColumnPBsToSchema (wire_protocol.cc lines 96-122). -/
def ColumnPBsToSchema (column_pbs : List ColumnSchemaPB) : Except Status Schema :=
  ColumnPBsToSchemaGo column_pbs [] 0 true

/-- Translation of the loop of SchemaToColumnPBs (wire_protocol.cc
lines 124-135): one wire entry per column with is_key set exactly when
the running index is below num_key_columns. -/
def SchemaToColumnPBsGo (num_key_columns : Nat) :
    Nat → List ColumnSchema → List ColumnSchemaPB
  | _, [] => []
  | idx, col :: rest =>
    { ColumnSchemaToPB col with is_key := decide (idx < num_key_columns) }
      :: SchemaToColumnPBsGo num_key_columns (idx + 1) rest

/-- Translation of SchemaToColumnPBs (wire_protocol.cc lines 124-135);
the C++ function always returns Status::OK, so the model returns the
list directly. -/
def SchemaToColumnPBs (schema : Schema) : List ColumnSchemaPB :=
  SchemaToColumnPBsGo schema.num_key_columns 0 schema.columns

/-- A key column appears after a non-key column in the wire list. -/
def OutOfOrderKey (pbs : List ColumnSchemaPB) : Prop :=
  ∃ j k, j < k ∧ k < pbs.length ∧
    (pbs.getD j default).is_key = false ∧ (pbs.getD k default).is_key = true

lemma columnSchemaFromPB_toPB (col : ColumnSchema) (b : Bool) :
    ColumnSchemaFromPB { ColumnSchemaToPB col with is_key := b } = col := rfl

lemma findDuplicateName_nodup {l : List String}
    (h : findDuplicateName l = none) : l.Nodup := by
  induction l with
  | nil => exact List.nodup_nil
  | cons hd tl ih =>
    unfold findDuplicateName at h
    by_cases hc : tl.contains hd
    · rw [if_pos hc] at h; exact absurd h (by simp)
    · rw [if_neg hc] at h
      exact List.Nodup.cons
        (fun hmem => hc ((List.elem_iff).mpr hmem)) (ih h)

lemma Schema.Reset_ok {cols : List ColumnSchema} {K : Nat} {s : Schema}
    (h : Schema.Reset cols K = .ok s) :
    s.columns = cols ∧ s.num_key_columns = K ∧ K ≤ cols.length ∧
      (cols.map ColumnSchema.name).Nodup := by
  unfold Schema.Reset at h
  split at h
  · exact absurd h (by simp)
  · next hlen =>
    rcases hfd : findDuplicateName (cols.map ColumnSchema.name) with _ | n
    · rw [hfd] at h
      simp only [Except.ok.injEq] at h
      exact ⟨by rw [← h], by rw [← h], by omega, findDuplicateName_nodup hfd⟩
    · rw [hfd] at h; exact absurd h (by simp)

lemma findDuplicateName_count {l : List String} {n : String}
    (h : findDuplicateName l = some n) : 2 ≤ l.count n := by
  induction l with
  | nil => simp [findDuplicateName] at h
  | cons hd tl ih =>
    unfold findDuplicateName at h
    by_cases hc : tl.contains hd
    · rw [if_pos hc] at h
      simp only [Option.some.injEq] at h
      subst h
      have hmem : hd ∈ tl := (List.elem_iff).mp hc
      have : 1 ≤ tl.count hd := List.count_pos_iff.mpr hmem
      rw [List.count_cons_self]
      omega
    · rw [if_neg hc] at h
      have := ih h
      rw [List.count_cons]
      omega

lemma findDuplicateName_none {l : List String}
    (h : ¬ l.Nodup) : ∃ n, findDuplicateName l = some n := by
  rcases hfd : findDuplicateName l with _ | n
  · exact absurd (findDuplicateName_nodup hfd) h
  · exact ⟨n, rfl⟩

lemma columnPBsToSchemaGo_of_ge (cs : List ColumnSchema) :
    ∀ (idx : Nat) (acc : List ColumnSchema) (nk K : Nat) (hk : Bool),
      K ≤ idx →
      ColumnPBsToSchemaGo (SchemaToColumnPBsGo K idx cs) acc nk hk
        = Schema.Reset (acc ++ cs) nk := by
  induction cs with
  | nil =>
    intro idx acc nk K hk _
    simp [SchemaToColumnPBsGo, ColumnPBsToSchemaGo]
  | cons c rest ih =>
    intro idx acc nk K hk hle
    have hkey : decide (idx < K) = false := by
      simp only [decide_eq_false_iff_not]; omega
    simp only [SchemaToColumnPBsGo, ColumnPBsToSchemaGo, hkey]
    rw [columnSchemaFromPB_toPB]
    simp only [Bool.false_eq_true, if_false]
    rw [ih (idx + 1) (acc ++ [c]) nk K false (by omega)]
    simp

lemma columnPBsToSchemaGo_of_le (cs : List ColumnSchema) :
    ∀ (idx : Nat) (acc : List ColumnSchema) (nk K : Nat),
      idx ≤ K →
      ColumnPBsToSchemaGo (SchemaToColumnPBsGo K idx cs) acc nk true
        = Schema.Reset (acc ++ cs) (nk + min (K - idx) cs.length) := by
  induction cs with
  | nil =>
    intro idx acc nk K _
    simp [SchemaToColumnPBsGo, ColumnPBsToSchemaGo]
  | cons c rest ih =>
    intro idx acc nk K hle
    by_cases hlt : idx < K
    · have hkey : decide (idx < K) = true := by simp [hlt]
      simp only [SchemaToColumnPBsGo, ColumnPBsToSchemaGo, hkey]
      rw [columnSchemaFromPB_toPB]
      simp only [Bool.not_true, Bool.false_eq_true, if_true, if_false]
      rw [ih (idx + 1) (acc ++ [c]) (nk + 1) K (by omega)]
      have heq : nk + 1 + min (K - (idx + 1)) rest.length
          = nk + min (K - idx) (rest.length + 1) := by omega
      rw [List.append_assoc, List.singleton_append, heq, List.length_cons]
    · have hkey : decide (idx < K) = false := by
        simp only [decide_eq_false_iff_not]; omega
      simp only [SchemaToColumnPBsGo, ColumnPBsToSchemaGo, hkey]
      rw [columnSchemaFromPB_toPB]
      simp only [Bool.false_eq_true, if_false]
      rw [columnPBsToSchemaGo_of_ge rest (idx + 1) (acc ++ [c]) nk K false (by omega)]
      have heq : nk = nk + min (K - idx) (c :: rest).length := by
        have : K - idx = 0 := by omega
        simp [this]
      rw [List.append_assoc, List.singleton_append, ← heq]

lemma schemaToColumnPBsGo_length (K : Nat) :
    ∀ (cs : List ColumnSchema) (idx : Nat),
      (SchemaToColumnPBsGo K idx cs).length = cs.length := by
  intro cs
  induction cs with
  | nil => intro idx; rfl
  | cons c rest ih =>
    intro idx
    simp [SchemaToColumnPBsGo, ih (idx + 1)]

lemma schemaToColumnPBsGo_getD_is_key (K : Nat) :
    ∀ (cs : List ColumnSchema) (idx i : Nat), i < cs.length →
      ((SchemaToColumnPBsGo K idx cs).getD i default).is_key
        = decide (idx + i < K) := by
  intro cs
  induction cs with
  | nil => intro idx i hi; simp at hi
  | cons c rest ih =>
    intro idx i hi
    cases i with
    | zero => simp [SchemaToColumnPBsGo]
    | succ i =>
      simp only [SchemaToColumnPBsGo, List.getD_cons_succ]
      rw [ih (idx + 1) i (by simp only [List.length_cons] at hi; omega)]
      have heq : idx + 1 + i = idx + (i + 1) := by omega
      rw [heq]

/-- C4: schema round trip.  A valid schema (one that its own validation
gate Schema::Reset accepts: key count at most the column count, unique
names) is encoded by SchemaToColumnPBs and decoded back by
ColumnPBsToSchema to a structurally equal schema, and the encoder sets
is_key exactly for the indices below num_key_columns. -/
theorem C4_schema_roundtrip (schema : Schema)
    (hvalid : Schema.Reset schema.columns schema.num_key_columns
      = Except.ok schema) :
    ColumnPBsToSchema (SchemaToColumnPBs schema) = Except.ok schema ∧
    (SchemaToColumnPBs schema).length = schema.columns.length ∧
    ∀ i, i < schema.columns.length →
      ((SchemaToColumnPBs schema).getD i default).is_key
        = decide (i < schema.num_key_columns) := by
  obtain ⟨-, -, hK, -⟩ := Schema.Reset_ok hvalid
  refine ⟨?_, schemaToColumnPBsGo_length _ _ _, ?_⟩
  · unfold ColumnPBsToSchema SchemaToColumnPBs
    rw [columnPBsToSchemaGo_of_le schema.columns 0 [] 0
      schema.num_key_columns (Nat.zero_le _)]
    have hmin : min (schema.num_key_columns - 0) schema.columns.length
        = schema.num_key_columns := by omega
    rw [hmin]
    simpa using hvalid
  · intro i hi
    unfold SchemaToColumnPBs
    rw [schemaToColumnPBsGo_getD_is_key schema.num_key_columns
      schema.columns 0 i hi]
    have heq : 0 + i = i := by omega
    rw [heq]

/-- C4 witness: the concrete three-column schema of the round-trip unit
test satisfies the hypotheses and the round trip. -/
theorem C4_schema_roundtrip_witness :
    Schema.Reset [⟨"col1", .STRING, false⟩, ⟨"col2", .STRING, false⟩,
        ⟨"col3", .UINT32, true⟩] 1
      = Except.ok (Schema.mk [⟨"col1", .STRING, false⟩,
        ⟨"col2", .STRING, false⟩, ⟨"col3", .UINT32, true⟩] 1) ∧
    ColumnPBsToSchema (SchemaToColumnPBs (Schema.mk [⟨"col1", .STRING, false⟩,
        ⟨"col2", .STRING, false⟩, ⟨"col3", .UINT32, true⟩] 1))
      = Except.ok (Schema.mk [⟨"col1", .STRING, false⟩,
        ⟨"col2", .STRING, false⟩, ⟨"col3", .UINT32, true⟩] 1) :=
  ⟨by decide, (C4_schema_roundtrip
    (Schema.mk [⟨"col1", .STRING, false⟩, ⟨"col2", .STRING, false⟩,
      ⟨"col3", .UINT32, true⟩] 1) (by decide)).1⟩

/-- The invalid-argument status produced for a key column found after a
non-key column, citing the offending column entry. -/
def outOfOrderKeyStatus (pb : ColumnSchemaPB) : Status :=
  Status.InvalidArgument "Got out-of-order key column" pb.shortDebugString (-1)

lemma columnPBsToSchemaGo_false_key_error :
    ∀ (pbs : List ColumnSchemaPB) (acc : List ColumnSchema) (nk : Nat),
      (∃ k, k < pbs.length ∧ (pbs.getD k default).is_key = true) →
      ∃ k, k < pbs.length ∧ (pbs.getD k default).is_key = true ∧
        ColumnPBsToSchemaGo pbs acc nk false
          = .error (outOfOrderKeyStatus (pbs.getD k default)) := by
  intro pbs
  induction pbs with
  | nil =>
    intro acc nk ⟨k, hk, _⟩
    simp at hk
  | cons pb rest ih =>
    intro acc nk ⟨k, hk, hkey⟩
    by_cases hpb : pb.is_key
    · refine ⟨0, by simp, by simpa using hpb, ?_⟩
      simp [ColumnPBsToSchemaGo, hpb, outOfOrderKeyStatus]
    · have hk0 : k ≠ 0 := by
        intro h
        rw [h, List.getD_cons_zero] at hkey
        exact hpb hkey
      obtain ⟨k', rfl⟩ := Nat.exists_eq_succ_of_ne_zero hk0
      rw [List.getD_cons_succ] at hkey
      obtain ⟨k0, hk0len, hk0key, heq⟩ :=
        ih (acc ++ [ColumnSchemaFromPB pb]) nk
          ⟨k', by simp only [List.length_cons] at hk; omega, hkey⟩
      refine ⟨k0 + 1, by simp only [List.length_cons]; omega,
        by simpa using hk0key, ?_⟩
      rw [List.getD_cons_succ]
      simpa [ColumnPBsToSchemaGo, hpb] using heq

lemma columnPBsToSchemaGo_true_outOfOrder :
    ∀ (pbs : List ColumnSchemaPB) (acc : List ColumnSchema) (nk : Nat),
      OutOfOrderKey pbs →
      ∃ k, k < pbs.length ∧ (pbs.getD k default).is_key = true ∧
        (∃ j, j < k ∧ (pbs.getD j default).is_key = false) ∧
        ColumnPBsToSchemaGo pbs acc nk true
          = .error (outOfOrderKeyStatus (pbs.getD k default)) := by
  intro pbs
  induction pbs with
  | nil =>
    intro acc nk ⟨j, k, hjk, hk, _, _⟩
    simp at hk
  | cons pb rest ih =>
    intro acc nk ⟨j, k, hjk, hk, hj, hkey⟩
    by_cases hpb : pb.is_key
    · have hj0 : j ≠ 0 := by
        intro h
        rw [h, List.getD_cons_zero] at hj
        rw [hj] at hpb
        exact Bool.false_ne_true hpb
      obtain ⟨j', rfl⟩ := Nat.exists_eq_succ_of_ne_zero hj0
      have hk0 : k ≠ 0 := by omega
      obtain ⟨k', rfl⟩ := Nat.exists_eq_succ_of_ne_zero hk0
      rw [List.getD_cons_succ] at hj
      rw [List.getD_cons_succ] at hkey
      obtain ⟨k0, hk0len, hk0key, ⟨j0, hj0lt, hj0key⟩, heq⟩ :=
        ih (acc ++ [ColumnSchemaFromPB pb]) (nk + 1)
          ⟨j', k', by omega, by simp only [List.length_cons] at hk; omega,
            hj, hkey⟩
      refine ⟨k0 + 1, by simp only [List.length_cons]; omega,
        by simpa using hk0key,
        ⟨j0 + 1, by omega, by simpa using hj0key⟩, ?_⟩
      rw [List.getD_cons_succ]
      simpa [ColumnPBsToSchemaGo, hpb] using heq
    · have hk0 : k ≠ 0 := by
        intro h
        rw [h, List.getD_cons_zero] at hkey
        exact hpb hkey
      obtain ⟨k', rfl⟩ := Nat.exists_eq_succ_of_ne_zero hk0
      rw [List.getD_cons_succ] at hkey
      obtain ⟨k0, hk0len, hk0key, heq⟩ :=
        columnPBsToSchemaGo_false_key_error rest
          (acc ++ [ColumnSchemaFromPB pb]) nk
          ⟨k', by simp only [List.length_cons] at hk; omega, hkey⟩
      refine ⟨k0 + 1, by simp only [List.length_cons]; omega,
        by simpa using hk0key,
        ⟨0, by omega, by simpa using hpb⟩, ?_⟩
      rw [List.getD_cons_succ]
      simpa [ColumnPBsToSchemaGo, hpb] using heq

lemma columnPBsToSchemaGo_false_no_key :
    ∀ (pbs : List ColumnSchemaPB) (acc : List ColumnSchema) (nk : Nat),
      (∀ k, k < pbs.length → (pbs.getD k default).is_key = false) →
      ColumnPBsToSchemaGo pbs acc nk false
        = Schema.Reset (acc ++ pbs.map ColumnSchemaFromPB) nk := by
  intro pbs
  induction pbs with
  | nil => intro acc nk _; simp [ColumnPBsToSchemaGo]
  | cons pb rest ih =>
    intro acc nk hnone
    have hpb : pb.is_key = false := by simpa using hnone 0 (by simp)
    simp only [ColumnPBsToSchemaGo, hpb, Bool.false_eq_true, if_false]
    rw [ih (acc ++ [ColumnSchemaFromPB pb]) nk (fun k hk => by
      simpa using hnone (k + 1) (by simp only [List.length_cons]; omega))]
    simp [List.append_assoc]

lemma columnPBsToSchemaGo_true_contiguous :
    ∀ (pbs : List ColumnSchemaPB) (acc : List ColumnSchema) (nk : Nat),
      ¬ OutOfOrderKey pbs →
      ColumnPBsToSchemaGo pbs acc nk true
        = Schema.Reset (acc ++ pbs.map ColumnSchemaFromPB)
            (nk + (pbs.takeWhile (fun pb => pb.is_key)).length) := by
  intro pbs
  induction pbs with
  | nil => intro acc nk _; simp [ColumnPBsToSchemaGo]
  | cons pb rest ih =>
    intro acc nk hord
    by_cases hpb : pb.is_key
    · simp only [ColumnPBsToSchemaGo, hpb, if_true, Bool.not_true,
        Bool.false_eq_true, if_false]
      rw [ih (acc ++ [ColumnSchemaFromPB pb]) (nk + 1) (fun ⟨j, k, hjk, hk, hj, hkey⟩ =>
        hord ⟨j + 1, k + 1, by omega, by simp only [List.length_cons]; omega,
          by simpa using hj, by simpa using hkey⟩)]
      rw [List.append_assoc, List.singleton_append]
      have htw : ((pb :: rest).takeWhile (fun pb => pb.is_key)).length
          = (rest.takeWhile (fun pb => pb.is_key)).length + 1 := by
        simp [List.takeWhile_cons, hpb]
      rw [htw, List.map_cons]
      have : nk + 1 + (rest.takeWhile (fun pb => pb.is_key)).length
          = nk + ((rest.takeWhile (fun pb => pb.is_key)).length + 1) := by omega
      rw [this]
    · have hpbf : pb.is_key = false := by simpa using hpb
      simp only [ColumnPBsToSchemaGo, hpbf, Bool.false_eq_true, if_false]
      have hnone : ∀ k, k < rest.length → (rest.getD k default).is_key = false := by
        intro k hk
        by_contra hkk
        exact hord ⟨0, k + 1, by omega, by simp only [List.length_cons]; omega,
          by simpa using hpbf, by simpa using Bool.of_not_eq_false hkk⟩
      rw [columnPBsToSchemaGo_false_no_key rest (acc ++ [ColumnSchemaFromPB pb]) nk hnone]
      rw [List.append_assoc, List.singleton_append]
      have htw : ((pb :: rest).takeWhile (fun pb => pb.is_key)).length = 0 := by
        simp [List.takeWhile_cons, hpbf]
      rw [htw, List.map_cons]
      rfl

lemma takeWhile_len_le {α : Type} (p : α → Bool) :
    ∀ l : List α, (l.takeWhile p).length ≤ l.length := by
  intro l
  induction l with
  | nil => simp
  | cons a t ih =>
    rw [List.takeWhile_cons]
    by_cases h : p a
    · simp only [h, if_true, List.length_cons]; omega
    · simp only [h, Bool.false_eq_true, if_false, List.length_nil,
        List.length_cons]
      omega

lemma shortDebugString_ne_empty (pb : ColumnSchemaPB) :
    pb.shortDebugString ≠ "" := by
  unfold ColumnSchemaPB.shortDebugString
  intro h
  have hl := congrArg String.length h
  simp only [String.length_append] at hl
  have h7 : ("name: \"" : String).length = 7 := by decide
  have h0 : ("" : String).length = 0 := by decide
  omega

lemma outOfOrderKeyStatus_msg (pb : ColumnSchemaPB) :
    (outOfOrderKeyStatus pb).msg
      = ("Got out-of-order key column: " ++ "name: \"") ++ pb.name
        ++ ("\" type: " ++ typeName pb.type ++ " is_key: "
            ++ (if pb.is_key then "true" else "false")) := by
  unfold outOfOrderKeyStatus Status.InvalidArgument combineMsg
  rw [if_neg (shortDebugString_ne_empty pb)]
  unfold ColumnSchemaPB.shortDebugString
  have : ("Got out-of-order key column: " : String)
      = "Got out-of-order key column" ++ ": " := by decide
  rw [this]
  simp only [← String.append_assoc]

/-- C5: a wire column list in which some key entry follows a non-key
entry makes ColumnPBsToSchema fail with an invalid-argument error whose
message cites the offending column by name, and no schema is produced;
for lists whose key entries form a contiguous prefix, the computed
num_key_columns equals the length of that prefix. -/
theorem C5_out_of_order_key_detection :
    (∀ pbs : List ColumnSchemaPB, OutOfOrderKey pbs →
      ∃ k, k < pbs.length ∧ (pbs.getD k default).is_key = true ∧
        (∃ j, j < k ∧ (pbs.getD j default).is_key = false) ∧
        ColumnPBsToSchema pbs
          = .error (outOfOrderKeyStatus (pbs.getD k default)) ∧
        (∃ pre post, (outOfOrderKeyStatus (pbs.getD k default)).msg
          = pre ++ (pbs.getD k default).name ++ post)) ∧
    (∀ pbs : List ColumnSchemaPB, ¬ OutOfOrderKey pbs →
      ∀ s, ColumnPBsToSchema pbs = .ok s →
        s.num_key_columns = (pbs.takeWhile (fun pb => pb.is_key)).length) := by
  constructor
  · intro pbs h
    obtain ⟨k, hk, hkey, hj, heq⟩ :=
      columnPBsToSchemaGo_true_outOfOrder pbs [] 0 h
    exact ⟨k, hk, hkey, hj, heq,
      ⟨_, _, outOfOrderKeyStatus_msg (pbs.getD k default)⟩⟩
  · intro pbs hord s hs
    unfold ColumnPBsToSchema at hs
    rw [columnPBsToSchemaGo_true_contiguous pbs [] 0 hord] at hs
    obtain ⟨-, hnk, -, -⟩ := Schema.Reset_ok hs
    simpa using hnk

/-- C5 witness: the concrete out-of-order list of the unit test is
rejected citing the third column, and a contiguous two-entry list with
one key yields num_key_columns one. -/
theorem C5_out_of_order_key_detection_witness :
    OutOfOrderKey [⟨"c0", .STRING, true, false⟩, ⟨"c1", .STRING, false, false⟩,
      ⟨"c2", .STRING, true, false⟩] ∧
    (∃ k, k < ([⟨"c0", .STRING, true, false⟩, ⟨"c1", .STRING, false, false⟩,
        ⟨"c2", .STRING, true, false⟩] : List ColumnSchemaPB).length ∧
      (([⟨"c0", .STRING, true, false⟩, ⟨"c1", .STRING, false, false⟩,
        ⟨"c2", .STRING, true, false⟩] : List ColumnSchemaPB).getD k default).is_key
        = true ∧
      (∃ j, j < k ∧ (([⟨"c0", .STRING, true, false⟩,
        ⟨"c1", .STRING, false, false⟩, ⟨"c2", .STRING, true, false⟩]
          : List ColumnSchemaPB).getD j default).is_key = false) ∧
      ColumnPBsToSchema [⟨"c0", .STRING, true, false⟩,
        ⟨"c1", .STRING, false, false⟩, ⟨"c2", .STRING, true, false⟩]
        = .error (outOfOrderKeyStatus (([⟨"c0", .STRING, true, false⟩,
            ⟨"c1", .STRING, false, false⟩, ⟨"c2", .STRING, true, false⟩]
              : List ColumnSchemaPB).getD k default)) ∧
      (∃ pre post, (outOfOrderKeyStatus (([⟨"c0", .STRING, true, false⟩,
          ⟨"c1", .STRING, false, false⟩, ⟨"c2", .STRING, true, false⟩]
            : List ColumnSchemaPB).getD k default)).msg
        = pre ++ (([⟨"c0", .STRING, true, false⟩,
            ⟨"c1", .STRING, false, false⟩, ⟨"c2", .STRING, true, false⟩]
              : List ColumnSchemaPB).getD k default).name ++ post)) ∧
    (¬ OutOfOrderKey [⟨"c0", .STRING, true, false⟩,
        ⟨"c1", .STRING, false, false⟩]) ∧
    (∀ s, ColumnPBsToSchema [⟨"c0", .STRING, true, false⟩,
        ⟨"c1", .STRING, false, false⟩] = .ok s →
      s.num_key_columns
        = (([⟨"c0", .STRING, true, false⟩, ⟨"c1", .STRING, false, false⟩]
            : List ColumnSchemaPB).takeWhile (fun pb => pb.is_key)).length) := by
  have hoo : OutOfOrderKey [⟨"c0", .STRING, true, false⟩,
      ⟨"c1", .STRING, false, false⟩, ⟨"c2", .STRING, true, false⟩] :=
    ⟨1, 2, by omega, by simp, rfl, rfl⟩
  have hno : ¬ OutOfOrderKey [⟨"c0", .STRING, true, false⟩,
      ⟨"c1", .STRING, false, false⟩] := by
    rintro ⟨j, k, hjk, hk, hj, hkey⟩
    have hk2 : k < 2 := by simpa using hk
    interval_cases k
    · omega
    · exact absurd hkey (by decide)
  exact ⟨hoo, C5_out_of_order_key_detection.1 _ hoo, hno,
    C5_out_of_order_key_detection.2 _ hno⟩

/-- C6: a wire column list with two identically named entries (and keys
forming a contiguous prefix) makes ColumnPBsToSchema fail with an
invalid-argument error naming the duplicate, surfaced by the
Schema::Reset validation gate; no schema is produced. -/
theorem C6_duplicate_column_name (pbs : List ColumnSchemaPB)
    (hdup : ¬ (pbs.map ColumnSchemaPB.name).Nodup)
    (hord : ¬ OutOfOrderKey pbs) :
    ∃ n, 2 ≤ (pbs.map ColumnSchemaPB.name).count n ∧
      ColumnPBsToSchema pbs
        = .error (Status.InvalidArgument
            ("Duplicate name present in schema: " ++ n) "" (-1)) := by
  obtain ⟨n, hfd⟩ := findDuplicateName_none hdup
  refine ⟨n, findDuplicateName_count hfd, ?_⟩
  unfold ColumnPBsToSchema
  rw [columnPBsToSchemaGo_true_contiguous pbs [] 0 hord]
  unfold Schema.Reset
  have hnames : (([] ++ pbs.map ColumnSchemaFromPB).map ColumnSchema.name)
      = pbs.map ColumnSchemaPB.name := by
    rw [List.nil_append, List.map_map]; rfl
  have hlen : ¬ (([] ++ pbs.map ColumnSchemaFromPB).length
      < 0 + (pbs.takeWhile (fun pb => pb.is_key)).length) := by
    have h1 := takeWhile_len_le (fun pb => pb.is_key) pbs
    simp only [List.nil_append, List.length_map]
    omega
  rw [if_neg hlen, hnames, hfd]

/-- C6 witness: the concrete duplicate-name list of the unit test (c0,
c1, c0 with contiguous keys) is rejected naming c0. -/
theorem C6_duplicate_column_name_witness :
    (¬ (([⟨"c0", .STRING, true, false⟩, ⟨"c1", .STRING, false, false⟩,
        ⟨"c0", .STRING, false, false⟩] : List ColumnSchemaPB).map
          ColumnSchemaPB.name).Nodup) ∧
    (¬ OutOfOrderKey [⟨"c0", .STRING, true, false⟩,
        ⟨"c1", .STRING, false, false⟩, ⟨"c0", .STRING, false, false⟩]) ∧
    ∃ n, 2 ≤ (([⟨"c0", .STRING, true, false⟩, ⟨"c1", .STRING, false, false⟩,
        ⟨"c0", .STRING, false, false⟩] : List ColumnSchemaPB).map
          ColumnSchemaPB.name).count n ∧
      ColumnPBsToSchema [⟨"c0", .STRING, true, false⟩,
          ⟨"c1", .STRING, false, false⟩, ⟨"c0", .STRING, false, false⟩]
        = .error (Status.InvalidArgument
            ("Duplicate name present in schema: " ++ n) "" (-1)) := by
  have hdup : ¬ (([⟨"c0", .STRING, true, false⟩, ⟨"c1", .STRING, false, false⟩,
      ⟨"c0", .STRING, false, false⟩] : List ColumnSchemaPB).map
        ColumnSchemaPB.name).Nodup := by decide
  have hord : ¬ OutOfOrderKey [⟨"c0", .STRING, true, false⟩,
      ⟨"c1", .STRING, false, false⟩, ⟨"c0", .STRING, false, false⟩] := by
    rintro ⟨j, k, hjk, hk, hj, hkey⟩
    have hk3 : k < 3 := by simpa using hk
    interval_cases k
    · omega
    · exact absurd hkey (by decide)
    · exact absurd hkey (by decide)
  exact ⟨hdup, hord, C6_duplicate_column_name _ hdup hord⟩

/-- Bytes at offsets [off, off+n) of a buffer; reading past the end
yields the available suffix. -/
def extractBytes (bs : List Nat) (off n : Nat) : List Nat :=
  (bs.drop off).take n

/-- In-place overwrite of the bytes at [off, off + v.length) with v. -/
def writeBytes (bs : List Nat) (off : Nat) (v : List Nat) : List Nat :=
  bs.take off ++ v ++ bs.drop (off + v.length)

/-- Little-endian value of a byte list; each entry is reduced mod 256,
the range a byte buffer holds. -/
def leToNat : List Nat → Nat
  | [] => 0
  | b :: rest => b % 256 + 256 * leToNat rest

/-- The k little-endian bytes of v, truncating v to k bytes. -/
def natToLE : Nat → Nat → List Nat
  | 0, _ => []
  | k + 1, v => v % 256 :: natToLE k (v / 256)

/-- The 64-bit little-endian unsigned integer stored at offset off, the
in-transit representation of one field of a reference descriptor. -/
def readU64 (bs : List Nat) (off : Nat) : Nat :=
  leToNat (extractBytes bs off 8)

/-- Modelled from the spec: count of nullable columns of a schema. -/
def numNullable (schema : Schema) : Nat :=
  (schema.columns.filter (fun c => c.is_nullable)).length

/-- Modelled from the spec (sections 3 and 6): byte size of the per-row
null bitmap span, sized to the count of nullable columns - one bit per
nullable column, rounded up to whole bytes, absent when nothing is
nullable.  (ContiguousRowHelper of common/row.h is not under the
translated sources.) -/
def nullBitmapSize (schema : Schema) : Nat :=
  (numNullable schema + 7) / 8

/-- Modelled from the spec: position of column i among the nullable
columns, giving its bit index inside the null bitmap. -/
def nullableOrdinal (schema : Schema) (i : Nat) : Nat :=
  ((schema.columns.take i).filter (fun c => c.is_nullable)).length

/-- Column i of a schema (callers stay in bounds; out of bounds yields
a dummy column). -/
def colAt (schema : Schema) (i : Nat) : ColumnSchema :=
  schema.columns.getD i ⟨"", .UINT32, false⟩

/-- Modelled from the spec (4.3, 6): byte offset of the slot of column
i inside one row - the null bitmap first, then the slots in column
order. -/
def cellOffset (schema : Schema) (i : Nat) : Nat :=
  nullBitmapSize schema
    + ((schema.columns.take i).map (fun c => typeSize c.type)).sum

/-- Modelled from the spec: ContiguousRowHelper::row_size, the fixed
stride of one row: null bitmap plus all column slots. -/
def rowSize (schema : Schema) : Nat :=
  nullBitmapSize schema + (schema.columns.map (fun c => typeSize c.type)).sum

/-- Modelled from the spec (4.3): is_null - the null-bitmap bit of
column i for the row starting at byte rowOff of the buffer. -/
def isNullAt (schema : Schema) (bs : List Nat) (rowOff i : Nat) : Bool :=
  Nat.testBit (bs.getD (rowOff + nullableOrdinal schema i / 8) 0)
    (nullableOrdinal schema i % 8)

/-- A source row handed to the encoder: its row bytes, in which each
variable-length slot holds an 8-byte address and an 8-byte length
pointing into the caller memory mem (the in-memory Slice form), plus
that caller memory. -/
structure SrcRow where
  bytes : List Nat
  mem : List Nat
deriving DecidableEq, Repr

/-- The row-block wire message (RowwiseRowBlockPB of
wire_protocol.proto): concatenated row slots plus the indirect data
buffer. -/
structure RowwiseRowBlockPB where
  rows : List Nat
  indirect_data : List Nat
deriving DecidableEq, Repr

/-- Encoder state: the caller-owned source row storage alongside the
protobuf being appended to.  Keeping both in the state records which
memory each translated write targets. -/
structure EncState where
  src : SrcRow
  pb : RowwiseRowBlockPB
deriving DecidableEq, Repr

/-- Translation of the per-column rewrite loop of AddRowToRowBlockPB
(wire_protocol.cc lines 212-232), recursing over the remaining column
indices.  A nullable column marked null in the source row has its
copied slot zeroed; a string column has its payload copied from the
caller memory into indirect_data and its copied slot descriptor
replaced by (offset into indirect_data, length); any other column keeps
the bytes copied verbatim. -/
def addRowCols (schema : Schema) (src : SrcRow) (appended_offset : Nat) :
    List Nat → List Nat → List Nat → List Nat × List Nat
  | [], data_buf, indirect => (data_buf, indirect)
  | i :: rest, data_buf, indirect =>
    let col := colAt schema i
    let dst := appended_offset + cellOffset schema i
    if col.is_nullable && isNullAt schema src.bytes 0 i then
      addRowCols schema src appended_offset rest
        (writeBytes data_buf dst (List.replicate (typeSize col.type) 0))
        indirect
    else if col.type = DataType.STRING then
      let addr := readU64 data_buf dst
      let len := readU64 data_buf (dst + 8)
      let offset_in_indirect := indirect.length
      addRowCols schema src appended_offset rest
        (writeBytes data_buf dst (natToLE 8 offset_in_indirect ++ natToLE 8 len))
        (indirect ++ extractBytes src.mem addr len)
    else
      addRowCols schema src appended_offset rest data_buf indirect

/-- Translation of AddRowToRowBlockPB (wire_protocol.cc lines 199-233):
append the row bytes onto the rows buffer, then rewrite the appended
copy column by column.  Every write targets the protobuf buffers; the
source row is only read. -/
def AddRowToRowBlockPB (schema : Schema) (st : EncState) : EncState :=
  let appended_offset := st.pb.rows.length
  let data_buf := st.pb.rows ++ st.src.bytes
  let res := addRowCols schema st.src appended_offset
    (List.range schema.columns.length) data_buf st.pb.indirect_data
  { st with pb := { rows := res.1, indirect_data := res.2 } }

/-- Appending a list of source rows in order into one block. -/
def AddRowsToRowBlockPB (schema : Schema) (rs : List SrcRow)
    (pb : RowwiseRowBlockPB) : RowwiseRowBlockPB :=
  rs.foldl (fun pb r => (AddRowToRowBlockPB schema { src := r, pb := pb }).pb) pb

/-- The corruption message for a slot whose slice descriptor points
outside the indirect buffer; it names the row index and the column. -/
def badSliceMsg (row_idx : Nat) (col : ColumnSchema) (off len : Nat) : String :=
  "Row #" ++ toString row_idx ++ " contained bad indirect slice for column "
    ++ col.toStr ++ ": (" ++ toString off ++ ", " ++ toString len ++ ")"

/-- Modelled from the spec: AddWithOverflowCheck (util/safe_math.h, not
under the translated sources) - 64-bit unsigned addition returning the
wrapped sum together with an overflow flag. -/
def AddWithOverflowCheck (a b : Nat) : Nat × Bool :=
  ((a + b) % 2 ^ 64, decide (2 ^ 64 ≤ a + b))

/-- Translation of the slot fix-up body of ExtractRowsFromRowBlockPB
(wire_protocol.cc lines 163-188) for column i of row row_idx: skip when
the nullable column is marked null in this row; otherwise read the
in-transit descriptor, fail with corruption naming the row and column
when the overflow-checked end passes the indirect buffer, else rewrite
the descriptor to its materialized form.  The model addresses the
indirect buffer from base 0, so the materialized pointer is the offset
itself. -/
def fixSlot (schema : Schema) (i : Nat) (indirLen : Nat)
    (row_data : List Nat) (row_idx : Nat) : Except Status (List Nat) :=
  let col := colAt schema i
  let dst := row_idx * rowSize schema + cellOffset schema i
  if !col.is_nullable || !isNullAt schema row_data (row_idx * rowSize schema) i then
    let offset_in_indirect := readU64 row_data dst
    let len := readU64 row_data (dst + 8)
    let check := AddWithOverflowCheck offset_in_indirect len
    if check.2 || decide (indirLen < check.1) then
      .error (Status.Corruption
        (badSliceMsg row_idx col offset_in_indirect len) "" (-1))
    else
      .ok (writeBytes row_data dst
        (natToLE 8 offset_in_indirect ++ natToLE 8 len))
  else
    .ok row_data

/-- Translation of the inner while loop of ExtractRowsFromRowBlockPB
over the row slots of one string column.  On failure the partially
rewritten buffer travels with the error, matching the in-place C++
mutation. -/
def fixRows (schema : Schema) (i : Nat) (indirLen : Nat) :
    List Nat → List Nat → List Nat × Option Status
  | [], row_data => (row_data, none)
  | row_idx :: rest, row_data =>
    match fixSlot schema i indirLen row_data row_idx with
    | .error e => (row_data, some e)
    | .ok bs => fixRows schema i indirLen rest bs

/-- Translation of the outer column loop of ExtractRowsFromRowBlockPB,
skipping non-string columns. -/
def fixColumns (schema : Schema) (indirLen numRows : Nat) :
    List Nat → List Nat → List Nat × Option Status
  | [], row_data => (row_data, none)
  | i :: rest, row_data =>
    if (colAt schema i).type ≠ DataType.STRING then
      fixColumns schema indirLen numRows rest row_data
    else
      match fixRows schema i indirLen (List.range numRows) row_data with
      | (bs, some e) => (bs, some e)
      | (bs, none) => fixColumns schema indirLen numRows rest bs

/-- The corruption message for a row buffer whose byte count is not a
multiple of the row stride; it reports both numbers. -/
def sizeMsg (n row_size : Nat) : String :=
  "Row block has " ++ toString n
    ++ " bytes of data which is not a multiple of row size "
    ++ toString row_size

/-- Translation of ExtractRowsFromRowBlockPB (wire_protocol.cc lines
138-197).  Returns the status, the possibly partially rewritten row
buffer inside the protobuf, and the output rows vector, to which one
entry per row slot (the row start offset, standing for the row pointer
pushed by the C++) is appended only after every fix-up succeeded, as in
the source. -/
def ExtractRowsFromRowBlockPB (schema : Schema) (pb : RowwiseRowBlockPB)
    (rows : List Nat) : Status × RowwiseRowBlockPB × List Nat :=
  let row_data := pb.rows
  let indir_data := pb.indirect_data
  let row_size := rowSize schema
  if row_data.length % row_size ≠ 0 then
    (Status.Corruption (sizeMsg row_data.length row_size) "" (-1), pb, rows)
  else
    let numRows := row_data.length / row_size
    match fixColumns schema indir_data.length numRows
        (List.range schema.columns.length) row_data with
    | (bs, some e) => (e, { pb with rows := bs }, rows)
    | (bs, none) =>
      (Status.OK, { pb with rows := bs },
        rows ++ (List.range numRows).map (fun j => j * row_size))

/-- The value a Row View exposes for one cell (spec 4.3 together with
the ExtractColumnFromRow accessor used by the tests): null when a
nullable column has its bit set, the referenced payload bytes for a
string column, the inline slot bytes otherwise.  For a source row the
reference buffer is the caller memory, so the same reader describes the
original and the decoded view. -/
inductive CellValue
  | nullCell
  | str (bytes : List Nat)
  | fixed (bytes : List Nat)
deriving DecidableEq, Repr

/-- Read one cell of the row starting at rowOff, resolving string
references into the buffer ind. -/
def readCell (schema : Schema) (bs ind : List Nat) (rowOff i : Nat) : CellValue :=
  let col := colAt schema i
  if col.is_nullable && isNullAt schema bs rowOff i then .nullCell
  else if col.type = DataType.STRING then
    .str (extractBytes ind (readU64 bs (rowOff + cellOffset schema i))
      (readU64 bs (rowOff + cellOffset schema i + 8)))
  else
    .fixed (extractBytes bs (rowOff + cellOffset schema i) (typeSize col.type))

/-- All cells of one row in column order. -/
def rowCells (schema : Schema) (bs ind : List Nat) (rowOff : Nat) :
    List CellValue :=
  (List.range schema.columns.length).map (readCell schema bs ind rowOff)

/-- A source row conforming to its schema: exactly rowSize bytes, byte
values below 256 in row and caller memory, and every non-null string
slot referencing memory inside the caller buffer. -/
def wellFormedRow (schema : Schema) (r : SrcRow) : Bool :=
  (r.bytes.length == rowSize schema) &&
  r.bytes.all (fun b => decide (b < 256)) &&
  r.mem.all (fun b => decide (b < 256)) &&
  (List.range schema.columns.length).all (fun i =>
    let col := colAt schema i
    !(col.type = DataType.STRING) ||
    (col.is_nullable && isNullAt schema r.bytes 0 i) ||
    decide (readU64 r.bytes (cellOffset schema i)
      + readU64 r.bytes (cellOffset schema i + 8) ≤ r.mem.length))

lemma extractBytes_length {bs : List Nat} {off n : Nat}
    (h : off + n ≤ bs.length) : (extractBytes bs off n).length = n := by
  simp only [extractBytes, List.length_take, List.length_drop]
  omega

lemma extractBytes_length_le (bs : List Nat) (off n : Nat) :
    (extractBytes bs off n).length ≤ n := by
  simp only [extractBytes, List.length_take, List.length_drop]
  omega

lemma natToLE_length (k v : Nat) : (natToLE k v).length = k := by
  induction k generalizing v with
  | zero => rfl
  | succ k ih => simp [natToLE, ih]

lemma natToLE_lt (k v : Nat) : ∀ b ∈ natToLE k v, b < 256 := by
  induction k generalizing v with
  | zero => intro b hb; simp [natToLE] at hb
  | succ k ih =>
    intro b hb
    simp only [natToLE, List.mem_cons] at hb
    rcases hb with h | h
    · subst h; exact Nat.mod_lt _ (by omega)
    · exact ih (v / 256) b h

lemma pow_mul_succ_aux (k : Nat) : 2 ^ (8 * (k + 1)) = 256 * 2 ^ (8 * k) := by
  rw [show 8 * (k + 1) = 8 + 8 * k by ring, pow_add]
  norm_num

lemma leToNat_natToLE (k v : Nat) : leToNat (natToLE k v) = v % 2 ^ (8 * k) := by
  induction k generalizing v with
  | zero => simp [natToLE, leToNat, Nat.mod_one]
  | succ k ih =>
    simp only [natToLE, leToNat, ih]
    rw [pow_mul_succ_aux k, Nat.mod_mul]
    omega

lemma natToLE_leToNat : ∀ (l : List Nat), (∀ b ∈ l, b < 256) →
    natToLE l.length (leToNat l) = l := by
  intro l
  induction l with
  | nil => intro _; rfl
  | cons b rest ih =>
    intro hb
    have hb0 : b < 256 := hb b (by simp)
    simp only [List.length_cons, natToLE, leToNat]
    have h1 : (b % 256 + 256 * leToNat rest) % 256 = b := by omega
    have h2 : (b % 256 + 256 * leToNat rest) / 256 = leToNat rest := by omega
    rw [h1, h2, ih (fun x hx => hb x (by simp [hx]))]

lemma leToNat_lt (l : List Nat) : leToNat l < 2 ^ (8 * l.length) := by
  induction l with
  | nil => simp [leToNat]
  | cons b rest ih =>
    simp only [leToNat, List.length_cons]
    rw [pow_mul_succ_aux rest.length]
    have hm : b % 256 < 256 := Nat.mod_lt _ (by omega)
    omega

lemma drop_drop_comm (l : List Nat) (m n : Nat) :
    (l.drop m).drop n = l.drop (m + n) := by
  rw [List.drop_drop]

lemma bytes_decomp (bs : List Nat) (off n : Nat) :
    bs = bs.take off ++ extractBytes bs off n ++ bs.drop (off + n) := by
  unfold extractBytes
  rw [← drop_drop_comm bs off n, List.append_assoc, List.take_append_drop,
    List.take_append_drop]

lemma writeBytes_self {bs v : List Nat} {off : Nat}
    (hv : extractBytes bs off v.length = v) : writeBytes bs off v = bs := by
  conv_rhs => rw [bytes_decomp bs off v.length]
  unfold writeBytes
  rw [hv]

lemma writeBytes_mid (F X S v : List Nat) (h : X.length = v.length) :
    writeBytes (F ++ (X ++ S)) F.length v = F ++ (v ++ S) := by
  unfold writeBytes
  rw [List.take_left]
  have hd : (F ++ (X ++ S)).drop (F.length + v.length) = S := by
    rw [← drop_drop_comm, List.drop_left, ← h, List.drop_left]
  rw [hd, List.append_assoc]

lemma extractBytes_append_right (F R : List Nat) (a n : Nat) :
    extractBytes (F ++ R) (F.length + a) n = extractBytes R a n := by
  unfold extractBytes
  rw [← drop_drop_comm, List.drop_left]

lemma extractBytes_append_left {X : List Nat} (Y : List Nat) {off n : Nat}
    (h : off + n ≤ X.length) :
    extractBytes (X ++ Y) off n = extractBytes X off n := by
  unfold extractBytes
  rw [List.drop_append_of_le_length (by omega),
    List.take_append_of_le_length (by simp; omega)]

lemma extractBytes_zero_of_drop {bs : List Nat} (off n : Nat) :
    extractBytes bs off n = extractBytes (bs.drop off) 0 n := by
  unfold extractBytes
  rw [List.drop_zero]

lemma extractBytes_add (bs : List Nat) (a b n : Nat) :
    extractBytes bs (a + b) n = extractBytes (bs.drop a) b n := by
  unfold extractBytes
  rw [drop_drop_comm]

lemma extractBytes_extractBytes (bs : List Nat) (off a m n : Nat)
    (h : a + n ≤ m) :
    extractBytes (extractBytes bs off m) a n = extractBytes bs (off + a) n := by
  unfold extractBytes
  rw [List.drop_take, drop_drop_comm, List.take_take]
  congr 1
  omega

lemma drop_eq_extract_append (bs : List Nat) (off n : Nat) :
    bs.drop off = extractBytes bs off n ++ bs.drop (off + n) := by
  unfold extractBytes
  rw [← drop_drop_comm, List.take_append_drop]

lemma flatten_drop_uniform (L : Nat) :
    ∀ (j : Nat) (regs : List (List Nat)), (∀ r ∈ regs, r.length = L) →
      regs.flatten.drop (j * L) = (regs.drop j).flatten := by
  intro j
  induction j with
  | zero => intro regs _; simp
  | succ j ih =>
    intro regs hreg
    cases regs with
    | nil => simp
    | cons r rest =>
      have hr : r.length = L := hreg r (by simp)
      simp only [List.flatten_cons, List.drop_succ_cons]
      rw [show (j + 1) * L = r.length + j * L by rw [hr]; ring]
      rw [← drop_drop_comm, List.drop_left]
      exact ih rest (fun x hx => hreg x (by simp [hx]))

lemma flatten_drop_cum :
    ∀ (j : Nat) (ps : List (List Nat)),
      ps.flatten.drop (((ps.take j).map List.length).sum) = (ps.drop j).flatten := by
  intro j
  induction j with
  | zero => intro ps; simp
  | succ j ih =>
    intro ps
    cases ps with
    | nil => simp
    | cons p rest =>
      simp only [List.take_succ_cons, List.map_cons, List.sum_cons,
        List.flatten_cons, List.drop_succ_cons]
      rw [← drop_drop_comm, List.drop_left]
      exact ih rest

lemma cellOffset_zero (schema : Schema) :
    cellOffset schema 0 = nullBitmapSize schema := by
  simp [cellOffset]

lemma colAt_eq_getElem (schema : Schema) {i : Nat}
    (hi : i < schema.columns.length) :
    colAt schema i = schema.columns[i] := by
  unfold colAt
  exact List.getD_eq_getElem _ _ hi

lemma cellOffset_succ (schema : Schema) {i : Nat}
    (hi : i < schema.columns.length) :
    cellOffset schema (i + 1)
      = cellOffset schema i + typeSize (colAt schema i).type := by
  unfold cellOffset
  have h1 : (schema.columns.map (fun c => typeSize c.type)).take (i + 1)
      = (schema.columns.map (fun c => typeSize c.type)).take i
        ++ [typeSize schema.columns[i].type] := by
    rw [List.take_succ]
    congr
    rw [List.getElem?_map, List.getElem?_eq_getElem hi]
    rfl
  rw [List.map_take, List.map_take, h1, List.sum_append]
  simp [colAt_eq_getElem schema hi, Nat.add_assoc]

lemma cellOffset_le_rowSize (schema : Schema) (i : Nat) :
    cellOffset schema i ≤ rowSize schema := by
  unfold cellOffset rowSize
  have h : (((schema.columns.take i).map (fun c => typeSize c.type)).sum)
      + (((schema.columns.drop i).map (fun c => typeSize c.type)).sum)
      = ((schema.columns.map (fun c => typeSize c.type)).sum) := by
    rw [← List.sum_append, ← List.map_append, List.take_append_drop]
  omega

lemma cellOffset_length_eq_rowSize (schema : Schema) :
    cellOffset schema schema.columns.length = rowSize schema := by
  unfold cellOffset rowSize
  rw [List.take_length]

lemma nullableOrdinal_lt_numNullable (schema : Schema) {i : Nat}
    (hi : i < schema.columns.length)
    (hn : (colAt schema i).is_nullable = true) :
    nullableOrdinal schema i < numNullable schema := by
  unfold nullableOrdinal numNullable
  conv_rhs => rw [← List.take_append_drop i schema.columns]
  rw [List.filter_append, List.length_append]
  have hdrop : schema.columns.drop i = schema.columns[i] :: schema.columns.drop (i + 1) :=
    List.drop_eq_getElem_cons hi
  rw [hdrop, List.filter_cons]
  rw [colAt_eq_getElem schema hi] at hn
  simp only [hn, if_true, List.length_cons]
  omega

lemma getD_add_drop (bs : List Nat) (o b : Nat) :
    bs.getD (o + b) 0 = (bs.drop o).getD b 0 := by
  simp [List.getD_eq_getElem?_getD, List.getElem?_drop]

lemma getD_append_lt {X : List Nat} (Y : List Nat) {b : Nat}
    (h : b < X.length) : (X ++ Y).getD b 0 = X.getD b 0 := by
  simp [List.getD_eq_getElem?_getD, List.getElem?_append_left h]

lemma getD_take_lt (bs : List Nat) {n b : Nat} (h : b < n) :
    (bs.take n).getD b 0 = bs.getD b 0 := by
  simp [List.getD_eq_getElem?_getD, List.getElem?_take, h]

lemma isNullAt_congr (schema : Schema) {bs1 bs2 : List Nat} {o1 o2 : Nat}
    (i : Nat)
    (h : ∀ j, j < nullBitmapSize schema →
      bs1.getD (o1 + j) 0 = bs2.getD (o2 + j) 0)
    (hlt : nullableOrdinal schema i / 8 < nullBitmapSize schema) :
    isNullAt schema bs1 o1 i = isNullAt schema bs2 o2 i := by
  unfold isNullAt
  rw [h (nullableOrdinal schema i / 8) hlt]

lemma nullableOrdinal_div_lt (schema : Schema) {i : Nat}
    (hi : i < schema.columns.length)
    (hn : (colAt schema i).is_nullable = true) :
    nullableOrdinal schema i / 8 < nullBitmapSize schema := by
  have h := nullableOrdinal_lt_numNullable schema hi hn
  unfold nullBitmapSize
  omega

lemma nullBitmapSize_le_rowSize (schema : Schema) :
    nullBitmapSize schema ≤ rowSize schema := by
  unfold rowSize
  omega

/-- Characterization helper for the encoder (proved below to describe
addRowCols): for the listed column indices, the final bytes of each
slot of the appended copy and the payload bytes appended to the
indirect buffer, starting from the given indirect length. -/
def encRowSlots (schema : Schema) (src : SrcRow) :
    List Nat → Nat → List (List Nat) × List Nat
  | [], _ => ([], [])
  | i :: rest, indLen =>
    let col := colAt schema i
    if col.is_nullable && isNullAt schema src.bytes 0 i then
      let s := encRowSlots schema src rest indLen
      (List.replicate (typeSize col.type) 0 :: s.1, s.2)
    else if col.type = DataType.STRING then
      let addr := readU64 src.bytes (cellOffset schema i)
      let len := readU64 src.bytes (cellOffset schema i + 8)
      let p := extractBytes src.mem addr len
      let s := encRowSlots schema src rest (indLen + p.length)
      ((natToLE 8 indLen ++ natToLE 8 len) :: s.1, p ++ s.2)
    else
      let s := encRowSlots schema src rest indLen
      (extractBytes src.bytes (cellOffset schema i) (typeSize col.type) :: s.1,
        s.2)

lemma addRowCols_spec (schema : Schema) (src : SrcRow) (off0 : Nat)
    (hlen : src.bytes.length = rowSize schema) :
    ∀ (n k : Nat) (F indirect : List Nat),
      k + n = schema.columns.length →
      F.length = off0 + cellOffset schema k →
      addRowCols schema src off0 (List.range' k n)
        (F ++ src.bytes.drop (cellOffset schema k)) indirect
      = (F ++ (encRowSlots schema src (List.range' k n) indirect.length).1.flatten,
         indirect ++ (encRowSlots schema src (List.range' k n) indirect.length).2) := by
  intro n
  induction n with
  | zero =>
    intro k F indirect hk hF
    have hkc : k = schema.columns.length := by omega
    have hdrop : src.bytes.drop (cellOffset schema k) = [] := by
      rw [hkc, cellOffset_length_eq_rowSize, ← hlen, List.drop_length]
    simp [List.range', addRowCols, encRowSlots, hdrop]
  | succ n ih =>
    intro k F indirect hk hF
    have hkn : k < schema.columns.length := by omega
    have hsz : cellOffset schema k + typeSize (colAt schema k).type
        ≤ rowSize schema := by
      rw [← cellOffset_succ schema hkn]
      exact cellOffset_le_rowSize schema (k + 1)
    have hslotlen : (extractBytes src.bytes (cellOffset schema k)
        (typeSize (colAt schema k).type)).length
        = typeSize (colAt schema k).type :=
      extractBytes_length (by omega)
    have hsplit : src.bytes.drop (cellOffset schema k)
        = extractBytes src.bytes (cellOffset schema k)
            (typeSize (colAt schema k).type)
          ++ src.bytes.drop (cellOffset schema k
              + typeSize (colAt schema k).type) :=
      drop_eq_extract_append _ _ _
    rw [List.range'_succ]
    simp only [addRowCols, encRowSlots]
    by_cases hnull : ((colAt schema k).is_nullable
        && isNullAt schema src.bytes 0 k) = true
    · simp only [hnull, if_true]
      rw [hsplit, ← hF]
      rw [writeBytes_mid F _ _ _ (by rw [hslotlen, List.length_replicate])]
      rw [← List.append_assoc]
      have hF' : (F ++ List.replicate (typeSize (colAt schema k).type) 0).length
          = off0 + cellOffset schema (k + 1) := by
        rw [List.length_append, List.length_replicate, hF,
          cellOffset_succ schema hkn]
        ring
      rw [← cellOffset_succ schema hkn] at *
      rw [ih (k + 1) (F ++ List.replicate (typeSize (colAt schema k).type) 0)
        indirect (by omega) hF']
      simp [List.append_assoc]
    · simp only [hnull, Bool.false_eq_true, if_false]
      by_cases hstr : (colAt schema k).type = DataType.STRING
      · simp only [hstr, if_pos rfl, if_true]
        have hr1 : readU64 (F ++ src.bytes.drop (cellOffset schema k))
            (off0 + cellOffset schema k) = readU64 src.bytes (cellOffset schema k) := by
          unfold readU64
          rw [← hF, show F.length = F.length + 0 by omega,
            extractBytes_append_right, ← extractBytes_zero_of_drop]
        have hr2 : readU64 (F ++ src.bytes.drop (cellOffset schema k))
            (off0 + cellOffset schema k + 8)
            = readU64 src.bytes (cellOffset schema k + 8) := by
          unfold readU64
          rw [← hF, extractBytes_append_right, ← extractBytes_add]
        rw [hr1, hr2, hsplit, ← hF]
        have hvlen : (extractBytes src.bytes (cellOffset schema k)
            (typeSize (colAt schema k).type)).length
            = (natToLE 8 indirect.length
              ++ natToLE 8 (readU64 src.bytes (cellOffset schema k + 8))).length := by
          rw [hslotlen, List.length_append, natToLE_length, natToLE_length, hstr]
          rfl
        rw [writeBytes_mid F _ _ _ hvlen]
        rw [← List.append_assoc]
        have hF' : (F ++ (natToLE 8 indirect.length
            ++ natToLE 8 (readU64 src.bytes (cellOffset schema k + 8)))).length
            = off0 + cellOffset schema (k + 1) := by
          rw [List.length_append, List.length_append, natToLE_length,
            natToLE_length, hF, cellOffset_succ schema hkn, hstr]
          rfl
        rw [← cellOffset_succ schema hkn]
        rw [ih (k + 1) _ _ (by omega) hF']
        rw [List.length_append]
        simp [List.append_assoc]
      · simp only [hstr, if_false]
        rw [hsplit, ← List.append_assoc]
        have hF' : (F ++ extractBytes src.bytes (cellOffset schema k)
            (typeSize (colAt schema k).type)).length
            = off0 + cellOffset schema (k + 1) := by
          rw [List.length_append, hslotlen, hF, cellOffset_succ schema hkn]
          ring
        rw [← cellOffset_succ schema hkn]
        rw [ih (k + 1) _ _ (by omega) hF']
        simp [List.append_assoc]

/-- The bytes one appended row contributes to the rows buffer: the
null bitmap copied from the source row followed by the rewritten
slots. -/
def encRowRegion (schema : Schema) (src : SrcRow) (indLen : Nat) : List Nat :=
  src.bytes.take (nullBitmapSize schema)
    ++ (encRowSlots schema src (List.range schema.columns.length) indLen).1.flatten

/-- The bytes one appended row contributes to the indirect buffer. -/
def encRowPayload (schema : Schema) (src : SrcRow) (indLen : Nat) : List Nat :=
  (encRowSlots schema src (List.range schema.columns.length) indLen).2

lemma AddRowToRowBlockPB_eq (schema : Schema) (st : EncState)
    (hlen : st.src.bytes.length = rowSize schema) :
    AddRowToRowBlockPB schema st
      = { src := st.src,
          pb := { rows := st.pb.rows
                    ++ encRowRegion schema st.src st.pb.indirect_data.length,
                  indirect_data := st.pb.indirect_data
                    ++ encRowPayload schema st.src st.pb.indirect_data.length } } := by
  unfold AddRowToRowBlockPB encRowRegion encRowPayload
  dsimp only
  have h0 : st.pb.rows ++ st.src.bytes
      = (st.pb.rows ++ st.src.bytes.take (cellOffset schema 0))
        ++ st.src.bytes.drop (cellOffset schema 0) := by
    rw [List.append_assoc, List.take_append_drop]
  have hblen : (st.pb.rows ++ st.src.bytes.take (cellOffset schema 0)).length
      = st.pb.rows.length + cellOffset schema 0 := by
    rw [List.length_append, List.length_take, hlen]
    have := cellOffset_le_rowSize schema 0
    omega
  rw [List.range_eq_range', h0,
    addRowCols_spec schema st.src st.pb.rows.length hlen
      schema.columns.length 0
      (st.pb.rows ++ st.src.bytes.take (cellOffset schema 0))
      st.pb.indirect_data (by omega) hblen]
  rw [cellOffset_zero, List.append_assoc, ← List.range_eq_range']

lemma encRowSlots_snd_indep (schema : Schema) (src : SrcRow) :
    ∀ (l : List Nat) (ind ind' : Nat),
      (encRowSlots schema src l ind).2 = (encRowSlots schema src l ind').2 := by
  intro l
  induction l with
  | nil => intro ind ind'; rfl
  | cons i rest ih =>
    intro ind ind'
    simp only [encRowSlots]
    by_cases hnull : ((colAt schema i).is_nullable
        && isNullAt schema src.bytes 0 i) = true
    · simp only [hnull, if_true]
      exact ih ind ind'
    · simp only [hnull, Bool.false_eq_true, if_false]
      by_cases hstr : (colAt schema i).type = DataType.STRING
      · simp only [hstr, if_true, if_pos rfl]
        rw [ih (ind + (extractBytes src.mem
            (readU64 src.bytes (cellOffset schema i))
            (readU64 src.bytes (cellOffset schema i + 8))).length)
          (ind' + (extractBytes src.mem
            (readU64 src.bytes (cellOffset schema i))
            (readU64 src.bytes (cellOffset schema i + 8))).length)]
      · simp only [hstr, if_false]
        exact ih ind ind'

lemma encRowSlots_fst_length (schema : Schema) (src : SrcRow)
    (hlen : src.bytes.length = rowSize schema) :
    ∀ (l : List Nat) (ind : Nat), (∀ i ∈ l, i < schema.columns.length) →
      ((encRowSlots schema src l ind).1.map List.length)
        = l.map (fun i => typeSize (colAt schema i).type) := by
  intro l
  induction l with
  | nil => intro ind _; rfl
  | cons i rest ih =>
    intro ind hb
    have hi : i < schema.columns.length := hb i (by simp)
    have hrest : ∀ j ∈ rest, j < schema.columns.length :=
      fun j hj => hb j (by simp [hj])
    have hsz : cellOffset schema i + typeSize (colAt schema i).type
        ≤ rowSize schema := by
      rw [← cellOffset_succ schema hi]
      exact cellOffset_le_rowSize schema (i + 1)
    simp only [encRowSlots]
    by_cases hnull : ((colAt schema i).is_nullable
        && isNullAt schema src.bytes 0 i) = true
    · rw [if_pos hnull]
      simp only [List.map_cons, List.length_replicate]
      rw [ih ind hrest]
    · rw [if_neg hnull]
      by_cases hstr : (colAt schema i).type = DataType.STRING
      · rw [if_pos hstr]
        simp only [List.map_cons, List.length_append, natToLE_length]
        rw [ih _ hrest]
        have h16 : typeSize (colAt schema i).type = 16 := by rw [hstr]; rfl
        rw [h16]
      · rw [if_neg hstr]
        simp only [List.map_cons]
        rw [ih ind hrest,
          extractBytes_length (by rw [hlen]; exact hsz)]

lemma range_map_getD {α β : Type} (cs : List α) (d : α) (f : α → β) :
    (List.range cs.length).map (fun i => f (cs.getD i d)) = cs.map f := by
  induction cs with
  | nil => rfl
  | cons c rest ih =>
    rw [List.length_cons, List.range_succ_eq_map, List.map_cons, List.map_map]
    congr 1

lemma encRowRegion_length (schema : Schema) (src : SrcRow)
    (hlen : src.bytes.length = rowSize schema) (indLen : Nat) :
    (encRowRegion schema src indLen).length = rowSize schema := by
  unfold encRowRegion
  rw [List.length_append, List.length_take, hlen, List.length_flatten]
  rw [encRowSlots_fst_length schema src hlen _ indLen
    (fun i hi => List.mem_range.mp hi)]
  have hsum : (List.range schema.columns.length).map
        (fun i => typeSize (colAt schema i).type)
      = schema.columns.map (fun c => typeSize c.type) := by
    unfold colAt
    exact range_map_getD schema.columns ⟨"", .UINT32, false⟩
      (fun c => typeSize c.type)
  rw [hsum]
  unfold rowSize
  have := nullBitmapSize_le_rowSize schema
  unfold rowSize at this
  omega

lemma encRowSlots_append (schema : Schema) (src : SrcRow) :
    ∀ (l1 l2 : List Nat) (ind : Nat),
      encRowSlots schema src (l1 ++ l2) ind
        = ((encRowSlots schema src l1 ind).1
            ++ (encRowSlots schema src l2
              (ind + (encRowSlots schema src l1 ind).2.length)).1,
           (encRowSlots schema src l1 ind).2
            ++ (encRowSlots schema src l2
              (ind + (encRowSlots schema src l1 ind).2.length)).2) := by
  intro l1
  induction l1 with
  | nil =>
    intro l2 ind
    simp [encRowSlots]
  | cons i rest ih =>
    intro l2 ind
    simp only [List.cons_append, encRowSlots, List.append_eq]
    by_cases hnull : ((colAt schema i).is_nullable
        && isNullAt schema src.bytes 0 i) = true
    · simp only [if_pos hnull]
      rw [ih l2 ind]
      simp
    · simp only [if_neg hnull]
      by_cases hstr : (colAt schema i).type = DataType.STRING
      · simp only [if_pos hstr]
        rw [ih l2 (ind + (extractBytes src.mem
          (readU64 src.bytes (cellOffset schema i))
          (readU64 src.bytes (cellOffset schema i + 8))).length)]
        simp [List.append_assoc, Nat.add_assoc]
      · simp only [if_neg hstr]
        rw [ih l2 ind]
        simp

/-- The final bytes of the slot of column i in an appended row region,
given the indirect length at the start of the row: zeros for a null
cell, the little-endian (offset, length) descriptor for a string cell,
the original inline bytes otherwise. -/
def encSlotAt (schema : Schema) (src : SrcRow) (ind i : Nat) : List Nat :=
  let col := colAt schema i
  if col.is_nullable && isNullAt schema src.bytes 0 i then
    List.replicate (typeSize col.type) 0
  else if col.type = DataType.STRING then
    natToLE 8 (ind + (encRowSlots schema src (List.range i) 0).2.length)
      ++ natToLE 8 (readU64 src.bytes (cellOffset schema i + 8))
  else
    extractBytes src.bytes (cellOffset schema i) (typeSize col.type)

lemma range_split_at (i n : Nat) (h : i < n) :
    List.range n = List.range i ++ (i :: List.range' (i + 1) (n - i - 1)) := by
  rw [List.range_eq_range', List.range_eq_range']
  have h1 : List.range' i (n - i) = i :: List.range' (i + 1) (n - i - 1) := by
    obtain ⟨m, hm⟩ : ∃ m, n - i = m + 1 := ⟨n - i - 1, by omega⟩
    rw [hm, List.range'_succ]
    congr 1
  rw [← h1]
  have h3 := List.range'_append 0 i (n - i) 1
  simp only [Nat.one_mul, Nat.zero_add] at h3
  rw [h3]
  congr 1
  omega

lemma getD_take_lt' {α : Type} (bs : List α) (d : α) {n b : Nat}
    (h : b < n) : (bs.take n).getD b d = bs.getD b d := by
  simp [List.getD_eq_getElem?_getD, List.getElem?_take, h]

lemma take_bitmap_length (schema : Schema) (src : SrcRow)
    (hlen : src.bytes.length = rowSize schema) :
    (src.bytes.take (nullBitmapSize schema)).length = nullBitmapSize schema := by
  rw [List.length_take, hlen]
  have := nullBitmapSize_le_rowSize schema
  omega

lemma range_map_typeSize (schema : Schema) {i : Nat}
    (hi : i ≤ schema.columns.length) :
    (List.range i).map (fun j => typeSize (colAt schema j).type)
      = (schema.columns.take i).map (fun c => typeSize c.type) := by
  have hlen_take : (schema.columns.take i).length = i := by
    rw [List.length_take]; omega
  rw [← range_map_getD (schema.columns.take i) ⟨"", .UINT32, false⟩
    (fun c => typeSize c.type), hlen_take]
  apply List.map_congr_left
  intro j hj
  have hji : j < i := List.mem_range.mp hj
  unfold colAt
  rw [getD_take_lt' schema.columns _ hji]

lemma encRowSlots_front_length (schema : Schema) (src : SrcRow)
    (hlen : src.bytes.length = rowSize schema) {i : Nat}
    (hi : i ≤ schema.columns.length) (ind : Nat) :
    (src.bytes.take (nullBitmapSize schema)
      ++ (encRowSlots schema src (List.range i) ind).1.flatten).length
      = cellOffset schema i := by
  rw [List.length_append, take_bitmap_length schema src hlen,
    List.length_flatten,
    encRowSlots_fst_length schema src hlen _ ind
      (fun j hj => by have := List.mem_range.mp hj; omega),
    range_map_typeSize schema hi]
  rfl

lemma encRowRegion_slot (schema : Schema) (src : SrcRow)
    (hlen : src.bytes.length = rowSize schema) (ind : Nat) {i : Nat}
    (hi : i < schema.columns.length) :
    extractBytes (encRowRegion schema src ind) (cellOffset schema i)
        (typeSize (colAt schema i).type)
      = encSlotAt schema src ind i := by
  have hsz : cellOffset schema i + typeSize (colAt schema i).type
      ≤ rowSize schema := by
    rw [← cellOffset_succ schema hi]
    exact cellOffset_le_rowSize schema (i + 1)
  unfold encRowRegion
  rw [range_split_at i schema.columns.length hi,
    encRowSlots_append schema src (List.range i) _ ind]
  rw [List.flatten_append, ← List.append_assoc]
  have hP := encRowSlots_front_length schema src hlen (le_of_lt hi) ind
  rw [← hP, show (src.bytes.take (nullBitmapSize schema)
      ++ (encRowSlots schema src (List.range i) ind).1.flatten).length
    = (src.bytes.take (nullBitmapSize schema)
      ++ (encRowSlots schema src (List.range i) ind).1.flatten).length + 0
    from by omega, extractBytes_append_right]
  simp only [encRowSlots]
  unfold encSlotAt
  by_cases hnull : ((colAt schema i).is_nullable
      && isNullAt schema src.bytes 0 i) = true
  · simp only [if_pos hnull, List.flatten_cons]
    unfold extractBytes
    rw [List.drop_zero, List.take_append_of_le_length
      (by rw [List.length_replicate]),
      List.take_of_length_le (by rw [List.length_replicate])]
  · simp only [if_neg hnull]
    by_cases hstr : (colAt schema i).type = DataType.STRING
    · simp only [if_pos hstr, List.flatten_cons]
      unfold extractBytes
      have hdlen : (natToLE 8 (ind + (encRowSlots schema src (List.range i) ind).2.length)
          ++ natToLE 8 (readU64 src.bytes (cellOffset schema i + 8))).length
          = typeSize (colAt schema i).type := by
        rw [List.length_append, natToLE_length, natToLE_length, hstr]
        rfl
      rw [List.drop_zero, List.take_append_of_le_length (by rw [hdlen]),
        List.take_of_length_le (by rw [hdlen])]
      rw [encRowSlots_snd_indep schema src (List.range i) ind 0]
    · simp only [if_neg hstr, List.flatten_cons]
      unfold extractBytes
      rw [List.drop_zero,
        List.take_append_of_le_length
          (by simp only [List.length_take, List.length_drop]; omega),
        List.take_of_length_le
          (by simp only [List.length_take, List.length_drop]; omega)]

lemma encRowRegion_isNull (schema : Schema) (src : SrcRow)
    (hlen : src.bytes.length = rowSize schema) (ind : Nat) {i : Nat}
    (hi : i < schema.columns.length)
    (hn : (colAt schema i).is_nullable = true) :
    isNullAt schema (encRowRegion schema src ind) 0 i
      = isNullAt schema src.bytes 0 i := by
  apply isNullAt_congr schema i ?_ (nullableOrdinal_div_lt schema hi hn)
  intro j hj
  simp only [Nat.zero_add]
  unfold encRowRegion
  rw [getD_append_lt _ (by rw [take_bitmap_length schema src hlen]; exact hj)]
  exact getD_take_lt src.bytes hj

/-- C8: encoder frame condition.  AddRowToRowBlockPB leaves the source
row bytes and caller memory untouched (every rewrite targets the copy
inside the block), only extends the rows buffer (by exactly one row
stride) and the indirect buffer, and, being a total function, has no
failure path for a row conforming to the schema. -/
theorem C8_encoder_frame (schema : Schema) (st : EncState)
    (hlen : st.src.bytes.length = rowSize schema) :
    (AddRowToRowBlockPB schema st).src = st.src ∧
    (AddRowToRowBlockPB schema st).pb.rows.take st.pb.rows.length
      = st.pb.rows ∧
    (AddRowToRowBlockPB schema st).pb.rows.length
      = st.pb.rows.length + rowSize schema ∧
    (AddRowToRowBlockPB schema st).pb.indirect_data.take
        st.pb.indirect_data.length = st.pb.indirect_data := by
  rw [AddRowToRowBlockPB_eq schema st hlen]
  refine ⟨rfl, List.take_left _ _, ?_, List.take_left _ _⟩
  rw [List.length_append,
    encRowRegion_length schema st.src hlen st.pb.indirect_data.length]

/-- C8 witness: a one-string-column schema and a concrete conforming
row; the append leaves the source untouched and extends both buffers. -/
theorem C8_encoder_frame_witness :
    ((EncState.mk ⟨natToLE 8 0 ++ natToLE 8 2, [65, 66]⟩
        ⟨[], []⟩).src.bytes.length
      = rowSize (Schema.mk [⟨"c", .STRING, false⟩] 1)) ∧
    ((AddRowToRowBlockPB (Schema.mk [⟨"c", .STRING, false⟩] 1)
        (EncState.mk ⟨natToLE 8 0 ++ natToLE 8 2, [65, 66]⟩ ⟨[], []⟩)).src
      = (EncState.mk ⟨natToLE 8 0 ++ natToLE 8 2, [65, 66]⟩ ⟨[], []⟩).src ∧
    (AddRowToRowBlockPB (Schema.mk [⟨"c", .STRING, false⟩] 1)
        (EncState.mk ⟨natToLE 8 0 ++ natToLE 8 2, [65, 66]⟩ ⟨[], []⟩)).pb.rows.take
        (EncState.mk ⟨natToLE 8 0 ++ natToLE 8 2, [65, 66]⟩ ⟨[], []⟩).pb.rows.length
      = (EncState.mk ⟨natToLE 8 0 ++ natToLE 8 2, [65, 66]⟩ ⟨[], []⟩).pb.rows ∧
    (AddRowToRowBlockPB (Schema.mk [⟨"c", .STRING, false⟩] 1)
        (EncState.mk ⟨natToLE 8 0 ++ natToLE 8 2, [65, 66]⟩ ⟨[], []⟩)).pb.rows.length
      = (EncState.mk ⟨natToLE 8 0 ++ natToLE 8 2, [65, 66]⟩ ⟨[], []⟩).pb.rows.length
        + rowSize (Schema.mk [⟨"c", .STRING, false⟩] 1) ∧
    (AddRowToRowBlockPB (Schema.mk [⟨"c", .STRING, false⟩] 1)
        (EncState.mk ⟨natToLE 8 0 ++ natToLE 8 2, [65, 66]⟩ ⟨[], []⟩)).pb.indirect_data.take
        (EncState.mk ⟨natToLE 8 0 ++ natToLE 8 2, [65, 66]⟩ ⟨[], []⟩).pb.indirect_data.length
      = (EncState.mk ⟨natToLE 8 0 ++ natToLE 8 2, [65, 66]⟩ ⟨[], []⟩).pb.indirect_data) :=
  ⟨by decide,
    C8_encoder_frame (Schema.mk [⟨"c", .STRING, false⟩] 1)
      (EncState.mk ⟨natToLE 8 0 ++ natToLE 8 2, [65, 66]⟩ ⟨[], []⟩)
      (by decide)⟩

/-- C7: null-cell zeroing.  For every row appended with
AddRowToRowBlockPB and every nullable column marked null in the source
row, the entire slot of that column in the appended copy (all of its
type-width bytes) is zero. -/
theorem C7_null_cell_zeroing (schema : Schema) (st : EncState) (i : Nat)
    (hlen : st.src.bytes.length = rowSize schema)
    (hi : i < schema.columns.length)
    (hnul : (colAt schema i).is_nullable = true)
    (hbit : isNullAt schema st.src.bytes 0 i = true) :
    extractBytes (AddRowToRowBlockPB schema st).pb.rows
        (st.pb.rows.length + cellOffset schema i)
        (typeSize (colAt schema i).type)
      = List.replicate (typeSize (colAt schema i).type) 0 := by
  rw [AddRowToRowBlockPB_eq schema st hlen]
  have h1 : extractBytes (st.pb.rows
      ++ encRowRegion schema st.src st.pb.indirect_data.length)
      (st.pb.rows.length + cellOffset schema i)
      (typeSize (colAt schema i).type)
      = extractBytes (encRowRegion schema st.src st.pb.indirect_data.length)
        (cellOffset schema i) (typeSize (colAt schema i).type) :=
    extractBytes_append_right _ _ _ _
  rw [h1, encRowRegion_slot schema st.src hlen _ hi]
  unfold encSlotAt
  rw [if_pos (by rw [hnul, hbit]; rfl)]

/-- C7 witness: a schema with one nullable uint32 column, a row marked
null whose slot holds stale bytes; the appended copy has a zero slot. -/
theorem C7_null_cell_zeroing_witness :
    ((EncState.mk ⟨[1, 7, 7, 7, 7], []⟩ ⟨[], []⟩).src.bytes.length
        = rowSize (Schema.mk [⟨"c", .UINT32, true⟩] 0) ∧
      0 < (Schema.mk [⟨"c", .UINT32, true⟩] 0).columns.length ∧
      (colAt (Schema.mk [⟨"c", .UINT32, true⟩] 0) 0).is_nullable = true ∧
      isNullAt (Schema.mk [⟨"c", .UINT32, true⟩] 0)
        (EncState.mk ⟨[1, 7, 7, 7, 7], []⟩ ⟨[], []⟩).src.bytes 0 0 = true) ∧
    extractBytes (AddRowToRowBlockPB (Schema.mk [⟨"c", .UINT32, true⟩] 0)
        (EncState.mk ⟨[1, 7, 7, 7, 7], []⟩ ⟨[], []⟩)).pb.rows
        ((EncState.mk ⟨[1, 7, 7, 7, 7], []⟩ ⟨[], []⟩).pb.rows.length
          + cellOffset (Schema.mk [⟨"c", .UINT32, true⟩] 0) 0)
        (typeSize (colAt (Schema.mk [⟨"c", .UINT32, true⟩] 0) 0).type)
      = List.replicate
          (typeSize (colAt (Schema.mk [⟨"c", .UINT32, true⟩] 0) 0).type) 0 :=
  ⟨⟨by decide, by decide, by decide, by decide⟩,
    C7_null_cell_zeroing (Schema.mk [⟨"c", .UINT32, true⟩] 0)
      (EncState.mk ⟨[1, 7, 7, 7, 7], []⟩ ⟨[], []⟩) 0
      (by decide) (by decide) (by decide) (by decide)⟩

/-- C3: a row buffer whose length is not a multiple of the row stride
makes ExtractRowsFromRowBlockPB fail with a corruption status whose
message reports the byte count and the row size, before any descriptor
fix-up is attempted: the buffer and the output rows are returned
untouched. -/
theorem C3_size_mismatch (schema : Schema) (pb : RowwiseRowBlockPB)
    (rows : List Nat)
    (h : pb.rows.length % rowSize schema ≠ 0) :
    ExtractRowsFromRowBlockPB schema pb rows
      = (Status.Corruption (sizeMsg pb.rows.length (rowSize schema)) "" (-1),
         pb, rows) ∧
    ∃ pre mid, sizeMsg pb.rows.length (rowSize schema)
      = pre ++ toString pb.rows.length ++ mid ++ toString (rowSize schema) := by
  constructor
  · unfold ExtractRowsFromRowBlockPB
    rw [if_pos h]
  · exact ⟨"Row block has ",
      " bytes of data which is not a multiple of row size ", rfl⟩

/-- C3 witness: the unit-test input - a one-string-column schema and a
single-byte buffer - produces exactly the size-mismatch corruption. -/
theorem C3_size_mismatch_witness :
    ((RowwiseRowBlockPB.mk [120] []).rows.length
        % rowSize (Schema.mk [⟨"col1", .STRING, false⟩] 1) ≠ 0) ∧
    ExtractRowsFromRowBlockPB (Schema.mk [⟨"col1", .STRING, false⟩] 1)
        (RowwiseRowBlockPB.mk [120] []) []
      = (Status.Corruption
          (sizeMsg (RowwiseRowBlockPB.mk [120] []).rows.length
            (rowSize (Schema.mk [⟨"col1", .STRING, false⟩] 1))) "" (-1),
         RowwiseRowBlockPB.mk [120] [], []) :=
  ⟨by decide,
    (C3_size_mismatch (Schema.mk [⟨"col1", .STRING, false⟩] 1)
      (RowwiseRowBlockPB.mk [120] []) [] (by decide)).1⟩

/-- C9: decode atomicity of the output rows.  Whenever
ExtractRowsFromRowBlockPB returns a non-OK status (size mismatch or bad
indirect slice), the output rows vector is returned exactly as passed
in: no Row View is appended on any failing path, even though the row
buffer may be left partially rewritten. -/
theorem C9_no_rows_on_error (schema : Schema) (pb : RowwiseRowBlockPB)
    (rows : List Nat)
    (h : (ExtractRowsFromRowBlockPB schema pb rows).1 ≠ Status.OK) :
    (ExtractRowsFromRowBlockPB schema pb rows).2.2 = rows := by
  revert h
  unfold ExtractRowsFromRowBlockPB
  dsimp only
  split
  · intro _; rfl
  · split
    · intro _; rfl
    · intro h; exact absurd rfl h

/-- C9 witness: the bad-indirect-slice input of the unit test errors
and appends nothing to a nonempty initial rows vector. -/
theorem C9_no_rows_on_error_witness :
    ((ExtractRowsFromRowBlockPB (Schema.mk [⟨"col1", .STRING, false⟩] 1)
        (RowwiseRowBlockPB.mk (List.replicate 16 120) []) [5]).1
      ≠ Status.OK) ∧
    (ExtractRowsFromRowBlockPB (Schema.mk [⟨"col1", .STRING, false⟩] 1)
        (RowwiseRowBlockPB.mk (List.replicate 16 120) []) [5]).2.2 = [5] :=
  ⟨by decide,
    C9_no_rows_on_error (Schema.mk [⟨"col1", .STRING, false⟩] 1)
      (RowwiseRowBlockPB.mk (List.replicate 16 120) []) [5] (by decide)⟩

/-- A slot the decoder processes: its column is a string column and the
row does not mark it null. -/
def slotProcessed (schema : Schema) (bs : List Nat) (j i : Nat) : Bool :=
  decide ((colAt schema i).type = DataType.STRING) &&
  (!(colAt schema i).is_nullable
    || !isNullAt schema bs (j * rowSize schema) i)

/-- A corrupt slot: processed, and its descriptor end - computed with
the 64-bit overflow check - overflows or passes the indirect length. -/
def slotBad (schema : Schema) (bs : List Nat) (indirLen j i : Nat) : Bool :=
  slotProcessed schema bs j i &&
  (decide (2 ^ 64 ≤ readU64 bs (j * rowSize schema + cellOffset schema i)
      + readU64 bs (j * rowSize schema + cellOffset schema i + 8))
    || decide (indirLen
        < (readU64 bs (j * rowSize schema + cellOffset schema i)
          + readU64 bs (j * rowSize schema + cellOffset schema i + 8))
          % 2 ^ 64))

lemma slot_in_bounds (schema : Schema) {bs : List Nat}
    (hmod : bs.length % rowSize schema = 0) {j i : Nat}
    (hj : j < bs.length / rowSize schema) (hi : i < schema.columns.length)
    (hstr : (colAt schema i).type = DataType.STRING) :
    j * rowSize schema + cellOffset schema i + 16 ≤ bs.length := by
  have hco : cellOffset schema i + 16 ≤ rowSize schema := by
    have h1 := cellOffset_succ schema hi
    rw [hstr] at h1
    have h2 := cellOffset_le_rowSize schema (i + 1)
    simp only [typeSize] at h1
    omega
  have hlen : bs.length = rowSize schema * (bs.length / rowSize schema) := by
    have := Nat.div_add_mod bs.length (rowSize schema)
    omega
  have hmul : (j + 1) * rowSize schema
      ≤ (bs.length / rowSize schema) * rowSize schema :=
    Nat.mul_le_mul_right _ (by omega)
  have hexp : (j + 1) * rowSize schema
      = j * rowSize schema + rowSize schema := by ring
  have hcomm : (bs.length / rowSize schema) * rowSize schema
      = rowSize schema * (bs.length / rowSize schema) := by ring
  omega

lemma mem_extractBytes {bs : List Nat} {off n : Nat} :
    ∀ b ∈ extractBytes bs off n, b ∈ bs := by
  intro b hb
  unfold extractBytes at hb
  exact List.mem_of_mem_drop (List.mem_of_mem_take hb)

lemma extractBytes_split16 (bs : List Nat) (dst : Nat) :
    extractBytes bs dst 16
      = extractBytes bs dst 8 ++ extractBytes bs (dst + 8) 8 := by
  unfold extractBytes
  rw [show (16 : Nat) = 8 + 8 from rfl, List.take_add, drop_drop_comm]

lemma fixSlot_not_bad (schema : Schema) {bs : List Nat}
    (h256 : ∀ b ∈ bs, b < 256) (indirLen : Nat) {j i : Nat}
    (hmod : bs.length % rowSize schema = 0)
    (hj : j < bs.length / rowSize schema) (hi : i < schema.columns.length)
    (hstr : (colAt schema i).type = DataType.STRING)
    (hbad : slotBad schema bs indirLen j i = false) :
    fixSlot schema i indirLen bs j = .ok bs := by
  unfold fixSlot
  by_cases hproc : (!(colAt schema i).is_nullable
      || !isNullAt schema bs (j * rowSize schema) i) = true
  · rw [if_pos hproc]
    have hfull : slotProcessed schema bs j i = true := by
      unfold slotProcessed
      rw [hproc, decide_eq_true hstr]
      rfl
    have hchk : (decide (2 ^ 64
          ≤ readU64 bs (j * rowSize schema + cellOffset schema i)
            + readU64 bs (j * rowSize schema + cellOffset schema i + 8))
        || decide (indirLen
          < (readU64 bs (j * rowSize schema + cellOffset schema i)
            + readU64 bs (j * rowSize schema + cellOffset schema i + 8))
            % 2 ^ 64)) = false := by
      unfold slotBad at hbad
      rw [hfull, Bool.true_and] at hbad
      exact hbad
    unfold AddWithOverflowCheck
    rw [if_neg (by rw [hchk]; simp)]
    congr 1
    apply writeBytes_self
    have hb16 : j * rowSize schema + cellOffset schema i + 16 ≤ bs.length :=
      slot_in_bounds schema hmod hj hi hstr
    have hlen16 : (natToLE 8 (readU64 bs (j * rowSize schema + cellOffset schema i))
        ++ natToLE 8 (readU64 bs (j * rowSize schema + cellOffset schema i + 8))).length
        = 16 := by
      rw [List.length_append, natToLE_length, natToLE_length]
    rw [hlen16, extractBytes_split16]
    have hround : ∀ (o : Nat), o + 8 ≤ bs.length →
        natToLE 8 (readU64 bs o) = extractBytes bs o 8 := by
      intro o ho
      have hl : (extractBytes bs o 8).length = 8 :=
        extractBytes_length (by omega)
      have hrt := natToLE_leToNat (extractBytes bs o 8)
        (fun b hb => h256 b (mem_extractBytes b hb))
      rw [hl] at hrt
      unfold readU64
      exact hrt
    rw [hround _ (by omega), hround _ (by omega)]
  · rw [if_neg hproc]

lemma fixSlot_bad (schema : Schema) {bs : List Nat} (indirLen : Nat)
    {j i : Nat} (hbad : slotBad schema bs indirLen j i = true) :
    fixSlot schema i indirLen bs j
      = .error (Status.Corruption (badSliceMsg j (colAt schema i)
          (readU64 bs (j * rowSize schema + cellOffset schema i))
          (readU64 bs (j * rowSize schema + cellOffset schema i + 8)))
          "" (-1)) := by
  unfold slotBad slotProcessed at hbad
  rw [Bool.and_eq_true, Bool.and_eq_true] at hbad
  obtain ⟨⟨-, hproc⟩, hchk⟩ := hbad
  unfold fixSlot AddWithOverflowCheck
  rw [if_pos hproc, if_pos (by rw [← hchk])]

lemma fixRows_all_good (schema : Schema) {bs : List Nat}
    (h256 : ∀ b ∈ bs, b < 256) (indirLen : Nat) {i : Nat}
    (hmod : bs.length % rowSize schema = 0) (hi : i < schema.columns.length)
    (hstr : (colAt schema i).type = DataType.STRING) :
    ∀ js : List Nat, (∀ j ∈ js, j < bs.length / rowSize schema) →
      (∀ j ∈ js, slotBad schema bs indirLen j i = false) →
      fixRows schema i indirLen js bs = (bs, none) := by
  intro js
  induction js with
  | nil => intro _ _; rfl
  | cons j rest ih =>
    intro hjs hgood
    unfold fixRows
    rw [fixSlot_not_bad schema h256 indirLen hmod (hjs j (by simp)) hi hstr
      (hgood j (by simp))]
    exact ih (fun x hx => hjs x (by simp [hx]))
      (fun x hx => hgood x (by simp [hx]))

lemma fixRows_bad (schema : Schema) {bs : List Nat}
    (h256 : ∀ b ∈ bs, b < 256) (indirLen : Nat) {i : Nat}
    (hmod : bs.length % rowSize schema = 0) (hi : i < schema.columns.length)
    (hstr : (colAt schema i).type = DataType.STRING) :
    ∀ js : List Nat, (∀ j ∈ js, j < bs.length / rowSize schema) →
      (∃ j ∈ js, slotBad schema bs indirLen j i = true) →
      ∃ j ∈ js, slotBad schema bs indirLen j i = true ∧
        fixRows schema i indirLen js bs
          = (bs, some (Status.Corruption (badSliceMsg j (colAt schema i)
              (readU64 bs (j * rowSize schema + cellOffset schema i))
              (readU64 bs (j * rowSize schema + cellOffset schema i + 8)))
              "" (-1))) := by
  intro js
  induction js with
  | nil => rintro _ ⟨j, hj, _⟩; simp at hj
  | cons j rest ih =>
    intro hjs hex
    by_cases hbad : slotBad schema bs indirLen j i = true
    · refine ⟨j, by simp, hbad, ?_⟩
      unfold fixRows
      rw [fixSlot_bad schema indirLen hbad]
    · have hgood : slotBad schema bs indirLen j i = false := by
        simpa using hbad
      obtain ⟨j0, hj0, hb0⟩ := hex
      have hj0r : j0 ∈ rest := by
        rcases List.mem_cons.mp hj0 with h | h
        · subst h; exact absurd hb0 hbad
        · exact h
      obtain ⟨j1, hj1, hb1, heq⟩ := ih (fun x hx => hjs x (by simp [hx]))
        ⟨j0, hj0r, hb0⟩
      refine ⟨j1, by simp [hj1], hb1, ?_⟩
      unfold fixRows
      rw [fixSlot_not_bad schema h256 indirLen hmod (hjs j (by simp)) hi hstr
        hgood]
      exact heq

lemma slotBad_of_not_string (schema : Schema) (bs : List Nat)
    (indirLen j i : Nat)
    (hstr : ¬ (colAt schema i).type = DataType.STRING) :
    slotBad schema bs indirLen j i = false := by
  unfold slotBad slotProcessed
  rw [decide_eq_false hstr]
  rfl

lemma fixColumns_all_good (schema : Schema) {bs : List Nat}
    (h256 : ∀ b ∈ bs, b < 256) (indirLen : Nat)
    (hmod : bs.length % rowSize schema = 0) :
    ∀ is : List Nat, (∀ i ∈ is, i < schema.columns.length) →
      (∀ i ∈ is, ∀ j, j < bs.length / rowSize schema →
        slotBad schema bs indirLen j i = false) →
      fixColumns schema indirLen (bs.length / rowSize schema) is bs
        = (bs, none) := by
  intro is
  induction is with
  | nil => intro _ _; rfl
  | cons i rest ih =>
    intro his hgood
    unfold fixColumns
    by_cases hstr : (colAt schema i).type = DataType.STRING
    · rw [if_neg (by simpa using hstr)]
      rw [fixRows_all_good schema h256 indirLen hmod (his i (by simp)) hstr
        (List.range (bs.length / rowSize schema))
        (fun j hj => List.mem_range.mp hj)
        (fun j hj => hgood i (by simp) j (List.mem_range.mp hj))]
      exact ih (fun x hx => his x (by simp [hx]))
        (fun x hx => hgood x (by simp [hx]))
    · rw [if_pos hstr]
      exact ih (fun x hx => his x (by simp [hx]))
        (fun x hx => hgood x (by simp [hx]))

lemma fixColumns_bad (schema : Schema) {bs : List Nat}
    (h256 : ∀ b ∈ bs, b < 256) (indirLen : Nat)
    (hmod : bs.length % rowSize schema = 0) :
    ∀ is : List Nat, (∀ i ∈ is, i < schema.columns.length) →
      (∃ i ∈ is, ∃ j, j < bs.length / rowSize schema ∧
        slotBad schema bs indirLen j i = true) →
      ∃ i ∈ is, ∃ j, j < bs.length / rowSize schema ∧
        slotBad schema bs indirLen j i = true ∧
        fixColumns schema indirLen (bs.length / rowSize schema) is bs
          = (bs, some (Status.Corruption (badSliceMsg j (colAt schema i)
              (readU64 bs (j * rowSize schema + cellOffset schema i))
              (readU64 bs (j * rowSize schema + cellOffset schema i + 8)))
              "" (-1))) := by
  intro is
  induction is with
  | nil => rintro _ ⟨i, hi, _⟩; simp at hi
  | cons i rest ih =>
    intro his hex
    unfold fixColumns
    by_cases hstr : (colAt schema i).type = DataType.STRING
    · rw [if_neg (by simpa using hstr)]
      by_cases hcol : ∃ j, j < bs.length / rowSize schema ∧
          slotBad schema bs indirLen j i = true
      · obtain ⟨j0, hj0, hb0⟩ := hcol
        obtain ⟨j1, hj1, hb1, heq⟩ := fixRows_bad schema h256 indirLen hmod
          (his i (by simp)) hstr (List.range (bs.length / rowSize schema))
          (fun x hx => List.mem_range.mp hx)
          ⟨j0, List.mem_range.mpr hj0, hb0⟩
        refine ⟨i, by simp, j1, List.mem_range.mp hj1, hb1, ?_⟩
        rw [heq]
      · have hgoodi : ∀ j, j < bs.length / rowSize schema →
            slotBad schema bs indirLen j i = false := by
          intro j hj
          by_contra hc
          exact hcol ⟨j, hj, by simpa using hc⟩
        rw [fixRows_all_good schema h256 indirLen hmod (his i (by simp)) hstr
          (List.range (bs.length / rowSize schema))
          (fun x hx => List.mem_range.mp hx)
          (fun x hx => hgoodi x (List.mem_range.mp hx))]
        have hexr : ∃ i0 ∈ rest, ∃ j, j < bs.length / rowSize schema ∧
            slotBad schema bs indirLen j i0 = true := by
          obtain ⟨i0, hi0, j0, hj0, hb0⟩ := hex
          rcases List.mem_cons.mp hi0 with h | h
          · subst h; exact absurd (hgoodi j0 hj0) (by simp [hb0])
          · exact ⟨i0, h, j0, hj0, hb0⟩
        obtain ⟨i1, hi1, j1, hj1, hb1, heq⟩ :=
          ih (fun x hx => his x (by simp [hx])) hexr
        exact ⟨i1, by simp [hi1], j1, hj1, hb1, heq⟩
    · rw [if_pos hstr]
      have hexr : ∃ i0 ∈ rest, ∃ j, j < bs.length / rowSize schema ∧
          slotBad schema bs indirLen j i0 = true := by
        obtain ⟨i0, hi0, j0, hj0, hb0⟩ := hex
        rcases List.mem_cons.mp hi0 with h | h
        · subst h
          exact absurd (slotBad_of_not_string schema bs indirLen j0 i0 hstr)
            (by simp [hb0])
        · exact ⟨i0, h, j0, hj0, hb0⟩
      obtain ⟨i1, hi1, j1, hj1, hb1, heq⟩ :=
        ih (fun x hx => his x (by simp [hx])) hexr
      exact ⟨i1, by simp [hi1], j1, hj1, hb1, heq⟩

lemma badSliceMsg_names (j : Nat) (col : ColumnSchema) (off len : Nat) :
    (∃ pre post, badSliceMsg j col off len = pre ++ toString j ++ post) ∧
    (∃ pre post, badSliceMsg j col off len = pre ++ col.name ++ post) := by
  constructor
  · refine ⟨"Row #", " contained bad indirect slice for column "
      ++ col.toStr ++ ": (" ++ toString off ++ ", " ++ toString len ++ ")", ?_⟩
    unfold badSliceMsg
    simp only [String.append_assoc]
  · refine ⟨"Row #" ++ toString j
      ++ " contained bad indirect slice for column ",
      " " ++ typeName col.type ++ ": (" ++ toString off ++ ", "
      ++ toString len ++ ")", ?_⟩
    unfold badSliceMsg ColumnSchema.toStr
    simp only [String.append_assoc]

/-- C2: for every schema, row buffer (of byte values) whose length is a
multiple of the row stride, and indirect buffer: whenever some
processed (non-null, variable-length) slot has a descriptor whose
overflow-checked end exceeds the 64-bit range or the indirect buffer
length, ExtractRowsFromRowBlockPB fails with a corruption status whose
message names the row index and the column of an offending slot; the
addition is overflow-checked, so a wrapped sum that lands back inside
the buffer still fails. -/
theorem C2_bad_indirect_slice (schema : Schema) (pb : RowwiseRowBlockPB)
    (rows : List Nat)
    (h256 : ∀ b ∈ pb.rows, b < 256)
    (hmod : pb.rows.length % rowSize schema = 0)
    (hbad : ∃ i, i < schema.columns.length ∧
      ∃ j, j < pb.rows.length / rowSize schema ∧
        slotBad schema pb.rows pb.indirect_data.length j i = true) :
    ∃ i, i < schema.columns.length ∧
      ∃ j, j < pb.rows.length / rowSize schema ∧
        slotBad schema pb.rows pb.indirect_data.length j i = true ∧
        ExtractRowsFromRowBlockPB schema pb rows
          = (Status.Corruption (badSliceMsg j (colAt schema i)
              (readU64 pb.rows (j * rowSize schema + cellOffset schema i))
              (readU64 pb.rows
                (j * rowSize schema + cellOffset schema i + 8))) "" (-1),
             pb, rows) ∧
        (∃ pre post, badSliceMsg j (colAt schema i)
            (readU64 pb.rows (j * rowSize schema + cellOffset schema i))
            (readU64 pb.rows (j * rowSize schema + cellOffset schema i + 8))
          = pre ++ toString j ++ post) ∧
        (∃ pre post, badSliceMsg j (colAt schema i)
            (readU64 pb.rows (j * rowSize schema + cellOffset schema i))
            (readU64 pb.rows (j * rowSize schema + cellOffset schema i + 8))
          = pre ++ (colAt schema i).name ++ post) := by
  obtain ⟨i0, hi0, j0, hj0, hb0⟩ := hbad
  obtain ⟨i1, hi1, j1, hj1, hb1, heq⟩ :=
    fixColumns_bad schema h256 pb.indirect_data.length hmod
      (List.range schema.columns.length)
      (fun x hx => List.mem_range.mp hx)
      ⟨i0, List.mem_range.mpr hi0, j0, hj0, hb0⟩
  refine ⟨i1, List.mem_range.mp hi1, j1, hj1, hb1, ?_,
    (badSliceMsg_names j1 (colAt schema i1) _ _).1,
    (badSliceMsg_names j1 (colAt schema i1) _ _).2⟩
  unfold ExtractRowsFromRowBlockPB
  dsimp only
  rw [if_neg (by simp [hmod]), heq]

/-- C2 witness: the unit-test input - one string column, sixteen bytes
of the letter x, empty indirect data - has a bad slot at row zero and
decoding fails with the corruption status naming it. -/
theorem C2_bad_indirect_slice_witness :
    ((∀ b ∈ (RowwiseRowBlockPB.mk (List.replicate 16 120) []).rows, b < 256) ∧
      (RowwiseRowBlockPB.mk (List.replicate 16 120) []).rows.length
        % rowSize (Schema.mk [⟨"col1", .STRING, false⟩] 1) = 0 ∧
      (∃ i, i < (Schema.mk [⟨"col1", .STRING, false⟩] 1).columns.length ∧
        ∃ j, j < (RowwiseRowBlockPB.mk (List.replicate 16 120) []).rows.length
            / rowSize (Schema.mk [⟨"col1", .STRING, false⟩] 1) ∧
          slotBad (Schema.mk [⟨"col1", .STRING, false⟩] 1)
            (RowwiseRowBlockPB.mk (List.replicate 16 120) []).rows
            (RowwiseRowBlockPB.mk (List.replicate 16 120) []).indirect_data.length
            j i = true)) ∧
    (∃ i, i < (Schema.mk [⟨"col1", .STRING, false⟩] 1).columns.length ∧
      ∃ j, j < (RowwiseRowBlockPB.mk (List.replicate 16 120) []).rows.length
          / rowSize (Schema.mk [⟨"col1", .STRING, false⟩] 1) ∧
        slotBad (Schema.mk [⟨"col1", .STRING, false⟩] 1)
          (RowwiseRowBlockPB.mk (List.replicate 16 120) []).rows
          (RowwiseRowBlockPB.mk (List.replicate 16 120) []).indirect_data.length
          j i = true ∧
        ExtractRowsFromRowBlockPB (Schema.mk [⟨"col1", .STRING, false⟩] 1)
            (RowwiseRowBlockPB.mk (List.replicate 16 120) []) []
          = (Status.Corruption (badSliceMsg j
              (colAt (Schema.mk [⟨"col1", .STRING, false⟩] 1) i)
              (readU64 (RowwiseRowBlockPB.mk (List.replicate 16 120) []).rows
                (j * rowSize (Schema.mk [⟨"col1", .STRING, false⟩] 1)
                  + cellOffset (Schema.mk [⟨"col1", .STRING, false⟩] 1) i))
              (readU64 (RowwiseRowBlockPB.mk (List.replicate 16 120) []).rows
                (j * rowSize (Schema.mk [⟨"col1", .STRING, false⟩] 1)
                  + cellOffset (Schema.mk [⟨"col1", .STRING, false⟩] 1) i + 8)))
              "" (-1),
             RowwiseRowBlockPB.mk (List.replicate 16 120) [], []) ∧
        (∃ pre post, badSliceMsg j
            (colAt (Schema.mk [⟨"col1", .STRING, false⟩] 1) i)
            (readU64 (RowwiseRowBlockPB.mk (List.replicate 16 120) []).rows
              (j * rowSize (Schema.mk [⟨"col1", .STRING, false⟩] 1)
                + cellOffset (Schema.mk [⟨"col1", .STRING, false⟩] 1) i))
            (readU64 (RowwiseRowBlockPB.mk (List.replicate 16 120) []).rows
              (j * rowSize (Schema.mk [⟨"col1", .STRING, false⟩] 1)
                + cellOffset (Schema.mk [⟨"col1", .STRING, false⟩] 1) i + 8))
          = pre ++ toString j ++ post) ∧
        (∃ pre post, badSliceMsg j
            (colAt (Schema.mk [⟨"col1", .STRING, false⟩] 1) i)
            (readU64 (RowwiseRowBlockPB.mk (List.replicate 16 120) []).rows
              (j * rowSize (Schema.mk [⟨"col1", .STRING, false⟩] 1)
                + cellOffset (Schema.mk [⟨"col1", .STRING, false⟩] 1) i))
            (readU64 (RowwiseRowBlockPB.mk (List.replicate 16 120) []).rows
              (j * rowSize (Schema.mk [⟨"col1", .STRING, false⟩] 1)
                + cellOffset (Schema.mk [⟨"col1", .STRING, false⟩] 1) i + 8))
          = pre ++ (colAt (Schema.mk [⟨"col1", .STRING, false⟩] 1) i).name
            ++ post)) :=
  ⟨⟨by decide, by decide, ⟨0, by decide, 0, by decide, by decide⟩⟩,
    C2_bad_indirect_slice (Schema.mk [⟨"col1", .STRING, false⟩] 1)
      (RowwiseRowBlockPB.mk (List.replicate 16 120) []) []
      (by decide) (by decide) ⟨0, by decide, 0, by decide, by decide⟩⟩

/-- Characterization of a whole encoded block: the per-row regions of
the rows buffer and the per-row payloads of the indirect buffer, each
row starting at the indirect length left by its predecessors. -/
def encRegions (schema : Schema) : List SrcRow → Nat → List (List Nat) × List (List Nat)
  | [], _ => ([], [])
  | r :: rest, indLen =>
    let reg := encRegions schema rest
      (indLen + (encRowPayload schema r indLen).length)
    (encRowRegion schema r indLen :: reg.1,
      encRowPayload schema r indLen :: reg.2)

lemma AddRowsToRowBlockPB_eq (schema : Schema) :
    ∀ (rs : List SrcRow) (pb : RowwiseRowBlockPB),
      (∀ r ∈ rs, r.bytes.length = rowSize schema) →
      AddRowsToRowBlockPB schema rs pb
        = { rows := pb.rows
              ++ (encRegions schema rs pb.indirect_data.length).1.flatten,
            indirect_data := pb.indirect_data
              ++ (encRegions schema rs pb.indirect_data.length).2.flatten } := by
  intro rs
  induction rs with
  | nil =>
    intro pb _
    simp [AddRowsToRowBlockPB, encRegions]
  | cons r rest ih =>
    intro pb hwf
    have hr : r.bytes.length = rowSize schema := hwf r (by simp)
    have hstep : AddRowsToRowBlockPB schema (r :: rest) pb
        = AddRowsToRowBlockPB schema rest
          ((AddRowToRowBlockPB schema { src := r, pb := pb }).pb) := rfl
    rw [hstep, AddRowToRowBlockPB_eq schema { src := r, pb := pb } hr]
    rw [ih _ (fun x hx => hwf x (by simp [hx]))]
    simp only [encRegions, List.flatten_cons, List.length_append,
      List.append_assoc]

lemma encRegions_fst_lengths (schema : Schema) :
    ∀ (rs : List SrcRow) (ind : Nat),
      (∀ r ∈ rs, r.bytes.length = rowSize schema) →
      ∀ reg ∈ (encRegions schema rs ind).1, reg.length = rowSize schema := by
  intro rs
  induction rs with
  | nil => intro ind _ reg hreg; simp [encRegions] at hreg
  | cons r rest ih =>
    intro ind hwf reg hreg
    simp only [encRegions, List.mem_cons] at hreg
    rcases hreg with h | h
    · rw [h]
      exact encRowRegion_length schema r (hwf r (by simp)) ind
    · exact ih _ (fun x hx => hwf x (by simp [hx])) reg h

lemma encRegions_count (schema : Schema) :
    ∀ (rs : List SrcRow) (ind : Nat),
      (encRegions schema rs ind).1.length = rs.length := by
  intro rs
  induction rs with
  | nil => intro ind; rfl
  | cons r rest ih =>
    intro ind
    simp [encRegions, ih]

lemma flatten_length_uniform (L : Nat) :
    ∀ (regs : List (List Nat)), (∀ r ∈ regs, r.length = L) →
      regs.flatten.length = regs.length * L := by
  intro regs
  induction regs with
  | nil => intro _; simp
  | cons r rest ih =>
    intro h
    simp only [List.flatten_cons, List.length_append, List.length_cons,
      h r (by simp), ih (fun x hx => h x (by simp [hx]))]
    ring

instance : Inhabited SrcRow := ⟨⟨[], []⟩⟩

lemma wellFormedRow_unpack {schema : Schema} {r : SrcRow}
    (h : wellFormedRow schema r = true) :
    r.bytes.length = rowSize schema ∧ (∀ b ∈ r.bytes, b < 256) ∧
    (∀ b ∈ r.mem, b < 256) ∧
    ∀ i, i < schema.columns.length →
      (colAt schema i).type = DataType.STRING →
      ¬ (((colAt schema i).is_nullable
          && isNullAt schema r.bytes 0 i) = true) →
      readU64 r.bytes (cellOffset schema i)
        + readU64 r.bytes (cellOffset schema i + 8) ≤ r.mem.length := by
  unfold wellFormedRow at h
  rw [Bool.and_eq_true, Bool.and_eq_true, Bool.and_eq_true] at h
  obtain ⟨⟨⟨h1, h2⟩, h3⟩, h4⟩ := h
  refine ⟨by simpa using h1, ?_, ?_, ?_⟩
  · intro b hb
    have := (List.all_eq_true.mp h2) b hb
    simpa using this
  · intro b hb
    have := (List.all_eq_true.mp h3) b hb
    simpa using this
  · intro i hi hstr hnn
    have hall := (List.all_eq_true.mp h4) i (List.mem_range.mpr hi)
    simp only [Bool.or_eq_true] at hall
    rcases hall with (hall | hall) | hall
    · rw [decide_eq_true hstr] at hall
      simp at hall
    · exact absurd hall hnn
    · simpa using hall

lemma encRowSlots_bytes_lt (schema : Schema) (src : SrcRow)
    (hb : ∀ b ∈ src.bytes, b < 256) (hm : ∀ b ∈ src.mem, b < 256) :
    ∀ (l : List Nat) (ind : Nat),
      (∀ b ∈ (encRowSlots schema src l ind).1.flatten, b < 256) ∧
      (∀ b ∈ (encRowSlots schema src l ind).2, b < 256) := by
  intro l
  induction l with
  | nil => intro ind; constructor <;> intro b hb0 <;> simp [encRowSlots] at hb0
  | cons i rest ih =>
    intro ind
    simp only [encRowSlots]
    by_cases hnull : ((colAt schema i).is_nullable
        && isNullAt schema src.bytes 0 i) = true
    · simp only [if_pos hnull, List.flatten_cons]
      refine ⟨?_, (ih ind).2⟩
      intro b hb0
      rcases List.mem_append.mp hb0 with h | h
      · have := List.eq_of_mem_replicate h
        omega
      · exact (ih ind).1 b h
    · simp only [if_neg hnull]
      by_cases hstr : (colAt schema i).type = DataType.STRING
      · simp only [if_pos hstr, List.flatten_cons]
        constructor
        · intro b hb0
          rcases List.mem_append.mp hb0 with h | h
          · rcases List.mem_append.mp h with h2 | h2
            · exact natToLE_lt _ _ b h2
            · exact natToLE_lt _ _ b h2
          · exact (ih _).1 b h
        · intro b hb0
          rcases List.mem_append.mp hb0 with h | h
          · exact hm b (mem_extractBytes b h)
          · exact (ih _).2 b h
      · simp only [if_neg hstr, List.flatten_cons]
        refine ⟨?_, (ih ind).2⟩
        intro b hb0
        rcases List.mem_append.mp hb0 with h | h
        · exact hb b (mem_extractBytes b h)
        · exact (ih ind).1 b h

lemma encRowRegion_bytes_lt (schema : Schema) (src : SrcRow)
    (hb : ∀ b ∈ src.bytes, b < 256) (hm : ∀ b ∈ src.mem, b < 256)
    (ind : Nat) : ∀ b ∈ encRowRegion schema src ind, b < 256 := by
  intro b hb0
  unfold encRowRegion at hb0
  rcases List.mem_append.mp hb0 with h | h
  · exact hb b (List.mem_of_mem_take h)
  · exact (encRowSlots_bytes_lt schema src hb hm _ ind).1 b h

lemma encRegions_bytes_lt (schema : Schema) :
    ∀ (rs : List SrcRow) (ind : Nat),
      (∀ r ∈ rs, wellFormedRow schema r = true) →
      (∀ b ∈ (encRegions schema rs ind).1.flatten, b < 256) ∧
      (∀ b ∈ (encRegions schema rs ind).2.flatten, b < 256) := by
  intro rs
  induction rs with
  | nil => intro ind _; constructor <;> intro b hb0 <;> simp [encRegions] at hb0
  | cons r rest ih =>
    intro ind hwf
    obtain ⟨-, hb, hm, -⟩ := wellFormedRow_unpack (hwf r (by simp))
    have ihr := ih (ind + (encRowPayload schema r ind).length)
      (fun x hx => hwf x (by simp [hx]))
    simp only [encRegions, List.flatten_cons]
    constructor
    · intro b hb0
      rcases List.mem_append.mp hb0 with h | h
      · exact encRowRegion_bytes_lt schema r hb hm ind b h
      · exact ihr.1 b h
    · intro b hb0
      rcases List.mem_append.mp hb0 with h | h
      · exact (encRowSlots_bytes_lt schema r hb hm _ ind).2 b h
      · exact ihr.2 b h

/-- Indirect length at the start of row j when encoding the given rows
starting from indirect length ind. -/
def indAt (schema : Schema) : List SrcRow → Nat → Nat → Nat
  | _, ind, 0 => ind
  | [], ind, _ + 1 => ind
  | r :: rest, ind, j + 1 =>
    indAt schema rest (ind + (encRowPayload schema r ind).length) j

lemma readU64_lt (bs : List Nat) (off : Nat) : readU64 bs off < 2 ^ 64 := by
  unfold readU64
  have h1 := leToNat_lt (extractBytes bs off 8)
  have h2 := extractBytes_length_le bs off 8
  exact lt_of_lt_of_le h1 (Nat.pow_le_pow_right (by omega) (by omega))

lemma readU64_of_slot {B : List Nat} {dst a b : Nat}
    (hslot : extractBytes B dst 16 = natToLE 8 a ++ natToLE 8 b) :
    readU64 B dst = a % 2 ^ 64 ∧ readU64 B (dst + 8) = b % 2 ^ 64 := by
  have hlow : extractBytes B dst 8 = natToLE 8 a := by
    have h8 : extractBytes B dst 8 = (extractBytes B dst 16).take 8 := by
      unfold extractBytes
      rw [List.take_take]
      norm_num
    rw [h8, hslot,
      List.take_append_of_le_length (by rw [natToLE_length]),
      List.take_of_length_le (by rw [natToLE_length])]
  have hhigh : extractBytes B (dst + 8) 8 = natToLE 8 b := by
    have h8 : extractBytes B (dst + 8) 8 = (extractBytes B dst 16).drop 8 := by
      unfold extractBytes
      rw [List.drop_take, drop_drop_comm]
    rw [h8, hslot,
      List.drop_append_of_le_length (by rw [natToLE_length]),
      List.drop_eq_nil_of_le (by rw [natToLE_length]), List.nil_append]
  constructor
  · unfold readU64
    rw [hlow, leToNat_natToLE]
  · unfold readU64
    rw [hhigh, leToNat_natToLE]

lemma regions_slot (schema : Schema) :
    ∀ (rs : List SrcRow) (ind j i : Nat), j < rs.length →
      (∀ r ∈ rs, r.bytes.length = rowSize schema) →
      i < schema.columns.length →
      extractBytes ((encRegions schema rs ind).1.flatten)
          (j * rowSize schema + cellOffset schema i)
          (typeSize (colAt schema i).type)
        = encSlotAt schema (rs.getD j default)
            (indAt schema rs ind j) i := by
  intro rs
  induction rs with
  | nil => intro ind j i hj; simp at hj
  | cons r rest ih =>
    intro ind j i hj hwf hi
    have hr : r.bytes.length = rowSize schema := hwf r (by simp)
    have hreg : (encRowRegion schema r ind).length = rowSize schema :=
      encRowRegion_length schema r hr ind
    have hsz : cellOffset schema i + typeSize (colAt schema i).type
        ≤ rowSize schema := by
      rw [← cellOffset_succ schema hi]
      exact cellOffset_le_rowSize schema (i + 1)
    cases j with
    | zero =>
      simp only [encRegions, List.flatten_cons, Nat.zero_mul, Nat.zero_add]
      rw [extractBytes_append_left _ (by rw [hreg]; omega)]
      rw [encRowRegion_slot schema r hr ind hi]
      rfl
    | succ j =>
      simp only [encRegions, List.flatten_cons]
      rw [show (j + 1) * rowSize schema + cellOffset schema i
          = (encRowRegion schema r ind).length
            + (j * rowSize schema + cellOffset schema i) by
        rw [hreg]; ring]
      rw [extractBytes_append_right]
      rw [ih _ j i (by simpa using hj)
        (fun x hx => hwf x (by simp [hx])) hi]
      rfl

lemma regions_isNull (schema : Schema) :
    ∀ (rs : List SrcRow) (ind j i : Nat), j < rs.length →
      (∀ r ∈ rs, r.bytes.length = rowSize schema) →
      i < schema.columns.length →
      (colAt schema i).is_nullable = true →
      isNullAt schema ((encRegions schema rs ind).1.flatten)
          (j * rowSize schema) i
        = isNullAt schema (rs.getD j default).bytes 0 i := by
  intro rs
  induction rs with
  | nil => intro ind j i hj; simp at hj
  | cons r rest ih =>
    intro ind j i hj hwf hi hn
    have hr : r.bytes.length = rowSize schema := hwf r (by simp)
    have hreg : (encRowRegion schema r ind).length = rowSize schema :=
      encRowRegion_length schema r hr ind
    have hdiv := nullableOrdinal_div_lt schema hi hn
    have hbm := nullBitmapSize_le_rowSize schema
    cases j with
    | zero =>
      simp only [encRegions, List.flatten_cons, Nat.zero_mul]
      have h1 : isNullAt schema
          (encRowRegion schema r ind ++ (encRegions schema rest
            (ind + (encRowPayload schema r ind).length)).1.flatten) 0 i
          = isNullAt schema (encRowRegion schema r ind) 0 i := by
        apply isNullAt_congr schema i ?_ hdiv
        intro jj hjj
        simp only [Nat.zero_add]
        exact getD_append_lt _ (by omega)
      rw [h1, encRowRegion_isNull schema r hr ind hi hn]
      rfl
    | succ j =>
      simp only [encRegions, List.flatten_cons]
      have h1 : isNullAt schema
          (encRowRegion schema r ind ++ (encRegions schema rest
            (ind + (encRowPayload schema r ind).length)).1.flatten)
          ((j + 1) * rowSize schema) i
          = isNullAt schema ((encRegions schema rest
            (ind + (encRowPayload schema r ind).length)).1.flatten)
            (j * rowSize schema) i := by
        apply isNullAt_congr schema i ?_ hdiv
        intro jj hjj
        rw [show (j + 1) * rowSize schema + jj
            = (encRowRegion schema r ind).length
              + (j * rowSize schema + jj) by rw [hreg]; ring]
        rw [getD_add_drop, List.drop_left]
      rw [h1, ih _ j i (by simpa using hj)
        (fun x hx => hwf x (by simp [hx])) hi hn]
      rfl

lemma encRowPayload_split (schema : Schema) (r : SrcRow) (ind : Nat)
    {i : Nat} (hi : i < schema.columns.length)
    (hstr : (colAt schema i).type = DataType.STRING)
    (hnn : ¬ (((colAt schema i).is_nullable
      && isNullAt schema r.bytes 0 i) = true)) :
    ∃ suffix, encRowPayload schema r ind
      = (encRowSlots schema r (List.range i) ind).2
        ++ (extractBytes r.mem (readU64 r.bytes (cellOffset schema i))
            (readU64 r.bytes (cellOffset schema i + 8)) ++ suffix) := by
  unfold encRowPayload
  rw [range_split_at i schema.columns.length hi,
    encRowSlots_append schema r (List.range i) _ ind]
  refine ⟨(encRowSlots schema r (List.range' (i + 1)
    (schema.columns.length - i - 1))
    (ind + (encRowSlots schema r (List.range i) ind).2.length
      + (extractBytes r.mem (readU64 r.bytes (cellOffset schema i))
        (readU64 r.bytes (cellOffset schema i + 8))).length)).2, ?_⟩
  simp only [encRowSlots, if_neg hnn, if_pos hstr]

lemma indAt_add_le (schema : Schema) :
    ∀ (rs : List SrcRow) (ind j : Nat), j < rs.length →
      indAt schema rs ind j
        + (encRowPayload schema (rs.getD j default)
            (indAt schema rs ind j)).length
        ≤ ind + (encRegions schema rs ind).2.flatten.length := by
  intro rs
  induction rs with
  | nil => intro ind j hj; simp at hj
  | cons r rest ih =>
    intro ind j hj
    cases j with
    | zero =>
      simp only [indAt, List.getD_cons_zero, encRegions, List.flatten_cons,
        List.length_append]
      omega
    | succ j =>
      simp only [indAt, List.getD_cons_succ, encRegions, List.flatten_cons,
        List.length_append]
      have := ih (ind + (encRowPayload schema r ind).length) j
        (by simpa using hj)
      omega

lemma regions_payload_at (schema : Schema) :
    ∀ (rs : List SrcRow) (I0 : List Nat) (j i : Nat), j < rs.length →
      (∀ r ∈ rs, wellFormedRow schema r = true) →
      i < schema.columns.length →
      (colAt schema i).type = DataType.STRING →
      ¬ (((colAt schema i).is_nullable
        && isNullAt schema (rs.getD j default).bytes 0 i) = true) →
      extractBytes (I0 ++ (encRegions schema rs I0.length).2.flatten)
          (indAt schema rs I0.length j
            + (encRowSlots schema (rs.getD j default) (List.range i) 0).2.length)
          (readU64 (rs.getD j default).bytes (cellOffset schema i + 8))
        = extractBytes (rs.getD j default).mem
            (readU64 (rs.getD j default).bytes (cellOffset schema i))
            (readU64 (rs.getD j default).bytes (cellOffset schema i + 8)) := by
  intro rs
  induction rs with
  | nil => intro I0 j i hj; simp at hj
  | cons r rest ih =>
    intro I0 j i hj hwf hi hstr
    cases j with
    | zero =>
      intro hnn
      simp only [List.getD_cons_zero] at hnn ⊢
      obtain ⟨-, -, hm, hwfi⟩ := wellFormedRow_unpack (hwf r (by simp))
      have hmem := hwfi i hi hstr hnn
      have hplen : (extractBytes r.mem
          (readU64 r.bytes (cellOffset schema i))
          (readU64 r.bytes (cellOffset schema i + 8))).length
          = readU64 r.bytes (cellOffset schema i + 8) :=
        extractBytes_length (by omega)
      simp only [indAt, encRegions, List.flatten_cons]
      rw [extractBytes_append_right]
      obtain ⟨suffix, hsplit⟩ :=
        encRowPayload_split schema r I0.length hi hstr hnn
      rw [hsplit]
      have hb : (encRowSlots schema r (List.range i) 0).2.length
          = (encRowSlots schema r (List.range i) I0.length).2.length := by
        rw [encRowSlots_snd_indep schema r (List.range i) 0 I0.length]
      rw [hb, List.append_assoc]
      rw [show (encRowSlots schema r (List.range i) I0.length).2.length
          = (encRowSlots schema r (List.range i) I0.length).2.length + 0
        from by omega]
      rw [extractBytes_append_right]
      unfold extractBytes at hplen ⊢
      rw [List.drop_zero, List.append_assoc,
        List.take_append_of_le_length (by omega),
        List.take_of_length_le (by omega)]
    | succ j =>
      intro hnn
      simp only [List.getD_cons_succ] at hnn ⊢
      simp only [indAt, encRegions, List.flatten_cons]
      have hre : I0 ++ (encRowPayload schema r I0.length
          ++ (encRegions schema rest
            (I0.length + (encRowPayload schema r I0.length).length)).2.flatten)
          = (I0 ++ encRowPayload schema r I0.length)
            ++ (encRegions schema rest
              ((I0 ++ encRowPayload schema r I0.length).length)).2.flatten := by
        rw [List.append_assoc, List.length_append]
      rw [hre, show I0.length + (encRowPayload schema r I0.length).length
          = (I0 ++ encRowPayload schema r I0.length).length
        from (List.length_append _ _).symm]
      exact ih (I0 ++ encRowPayload schema r I0.length) j i
        (by simpa using hj) (fun x hx => hwf x (by simp [hx])) hi hstr hnn

lemma inRow_prefix_le (schema : Schema) (r : SrcRow) (ind : Nat) {i : Nat}
    (hi : i < schema.columns.length)
    (hstr : (colAt schema i).type = DataType.STRING)
    (hnn : ¬ (((colAt schema i).is_nullable
      && isNullAt schema r.bytes 0 i) = true)) :
    (encRowSlots schema r (List.range i) ind).2.length
      + (extractBytes r.mem (readU64 r.bytes (cellOffset schema i))
          (readU64 r.bytes (cellOffset schema i + 8))).length
      ≤ (encRowPayload schema r ind).length := by
  obtain ⟨suffix, hsplit⟩ := encRowPayload_split schema r ind hi hstr hnn
  rw [hsplit, List.length_append, List.length_append]
  omega

lemma regions_not_bad (schema : Schema) (rs : List SrcRow)
    (hwf : ∀ r ∈ rs, wellFormedRow schema r = true)
    (htot : (encRegions schema rs 0).2.flatten.length < 2 ^ 64) :
    ∀ j i, j < rs.length → i < schema.columns.length →
      slotBad schema ((encRegions schema rs 0).1.flatten)
        ((encRegions schema rs 0).2.flatten.length) j i = false := by
  intro j i hj hi
  have hlens : ∀ r ∈ rs, r.bytes.length = rowSize schema :=
    fun r hr => (wellFormedRow_unpack (hwf r hr)).1
  by_cases hstr : (colAt schema i).type = DataType.STRING
  · have hjr : rs.getD j default ∈ rs := by
      rw [List.getD_eq_getElem _ _ hj]
      exact List.getElem_mem hj
    obtain ⟨-, -, hm, hwfi⟩ := wellFormedRow_unpack (hwf _ hjr)
    by_cases hnn : (((colAt schema i).is_nullable
        && isNullAt schema (rs.getD j default).bytes 0 i) = true)
    · -- the slot is null in its row, hence skipped, hence not bad
      rw [Bool.and_eq_true] at hnn
      obtain ⟨hnul, hbit⟩ := hnn
      unfold slotBad slotProcessed
      rw [regions_isNull schema rs 0 j i hj hlens hi hnul, hnul, hbit]
      simp
    · -- processed slot of the encoded block: descriptor is in bounds
      have hmem := hwfi i hi hstr hnn
      have hslot := regions_slot schema rs 0 j i hj hlens hi
      rw [show typeSize (colAt schema i).type = 16 from by rw [hstr]; rfl]
        at hslot
      unfold encSlotAt at hslot
      rw [if_neg hnn, if_pos hstr] at hslot
      obtain ⟨hoff, hlenr⟩ := readU64_of_slot hslot
      have hplen : (extractBytes (rs.getD j default).mem
          (readU64 (rs.getD j default).bytes (cellOffset schema i))
          (readU64 (rs.getD j default).bytes (cellOffset schema i + 8))).length
          = readU64 (rs.getD j default).bytes (cellOffset schema i + 8) :=
        extractBytes_length (by omega)
      have hpre : (encRowSlots schema (rs.getD j default) (List.range i) 0).2.length
          = (encRowSlots schema (rs.getD j default) (List.range i)
              (indAt schema rs 0 j)).2.length := by
        rw [encRowSlots_snd_indep schema (rs.getD j default) (List.range i)
          0 (indAt schema rs 0 j)]
      have hrow := inRow_prefix_le schema (rs.getD j default)
        (indAt schema rs 0 j) hi hstr hnn
      have hglob := indAt_add_le schema rs 0 j hj
      have hbound : indAt schema rs 0 j
          + (encRowSlots schema (rs.getD j default) (List.range i) 0).2.length
          + readU64 (rs.getD j default).bytes (cellOffset schema i + 8)
          ≤ (encRegions schema rs 0).2.flatten.length := by
        rw [hpre, ← hplen]
        omega
      have hlt64 : readU64 (rs.getD j default).bytes (cellOffset schema i + 8)
          < 2 ^ 64 := readU64_lt _ _
      have hoffv : readU64 ((encRegions schema rs 0).1.flatten)
          (j * rowSize schema + cellOffset schema i)
          = indAt schema rs 0 j
            + (encRowSlots schema (rs.getD j default) (List.range i) 0).2.length := by
        rw [hoff, Nat.mod_eq_of_lt (by omega)]
      have hlenv : readU64 ((encRegions schema rs 0).1.flatten)
          (j * rowSize schema + cellOffset schema i + 8)
          = readU64 (rs.getD j default).bytes (cellOffset schema i + 8) := by
        rw [hlenr, Nat.mod_eq_of_lt (by omega)]
      unfold slotBad
      rw [hoffv, hlenv,
        Nat.mod_eq_of_lt (show indAt schema rs 0 j
          + (encRowSlots schema (rs.getD j default) (List.range i) 0).2.length
          + readU64 (rs.getD j default).bytes (cellOffset schema i + 8)
          < 2 ^ 64 from by omega),
        decide_eq_false (show ¬ (2 ^ 64 ≤ indAt schema rs 0 j
          + (encRowSlots schema (rs.getD j default) (List.range i) 0).2.length
          + readU64 (rs.getD j default).bytes (cellOffset schema i + 8))
          from by omega),
        decide_eq_false (show ¬ ((encRegions schema rs 0).2.flatten.length
          < indAt schema rs 0 j
          + (encRowSlots schema (rs.getD j default) (List.range i) 0).2.length
          + readU64 (rs.getD j default).bytes (cellOffset schema i + 8))
          from by omega)]
      simp
  · exact slotBad_of_not_string schema _ _ j i hstr

lemma regions_descriptor (schema : Schema) (rs : List SrcRow)
    (hwf : ∀ r ∈ rs, wellFormedRow schema r = true)
    (htot : (encRegions schema rs 0).2.flatten.length < 2 ^ 64)
    {j i : Nat} (hj : j < rs.length) (hi : i < schema.columns.length)
    (hstr : (colAt schema i).type = DataType.STRING)
    (hnn : ¬ (((colAt schema i).is_nullable
      && isNullAt schema (rs.getD j default).bytes 0 i) = true)) :
    readU64 ((encRegions schema rs 0).1.flatten)
        (j * rowSize schema + cellOffset schema i)
      = indAt schema rs 0 j
        + (encRowSlots schema (rs.getD j default) (List.range i) 0).2.length ∧
    readU64 ((encRegions schema rs 0).1.flatten)
        (j * rowSize schema + cellOffset schema i + 8)
      = readU64 (rs.getD j default).bytes (cellOffset schema i + 8) := by
  have hlens : ∀ r ∈ rs, r.bytes.length = rowSize schema :=
    fun r hr => (wellFormedRow_unpack (hwf r hr)).1
  have hjr : rs.getD j default ∈ rs := by
    rw [List.getD_eq_getElem _ _ hj]
    exact List.getElem_mem hj
  obtain ⟨-, -, hm, hwfi⟩ := wellFormedRow_unpack (hwf _ hjr)
  have hmem := hwfi i hi hstr hnn
  have hslot := regions_slot schema rs 0 j i hj hlens hi
  rw [show typeSize (colAt schema i).type = 16 from by rw [hstr]; rfl] at hslot
  unfold encSlotAt at hslot
  rw [if_neg hnn, if_pos hstr] at hslot
  obtain ⟨hoff, hlenr⟩ := readU64_of_slot hslot
  have hplen : (extractBytes (rs.getD j default).mem
      (readU64 (rs.getD j default).bytes (cellOffset schema i))
      (readU64 (rs.getD j default).bytes (cellOffset schema i + 8))).length
      = readU64 (rs.getD j default).bytes (cellOffset schema i + 8) :=
    extractBytes_length (by omega)
  have hpre : (encRowSlots schema (rs.getD j default) (List.range i) 0).2.length
      = (encRowSlots schema (rs.getD j default) (List.range i)
          (indAt schema rs 0 j)).2.length := by
    rw [encRowSlots_snd_indep schema (rs.getD j default) (List.range i)
      0 (indAt schema rs 0 j)]
  have hrow := inRow_prefix_le schema (rs.getD j default)
    (indAt schema rs 0 j) hi hstr hnn
  have hglob := indAt_add_le schema rs 0 j hj
  have hbound : indAt schema rs 0 j
      + (encRowSlots schema (rs.getD j default) (List.range i) 0).2.length
      + readU64 (rs.getD j default).bytes (cellOffset schema i + 8)
      ≤ (encRegions schema rs 0).2.flatten.length := by
    rw [hpre, ← hplen]
    omega
  have hlt64 := readU64_lt (rs.getD j default).bytes (cellOffset schema i + 8)
  constructor
  · rw [hoff, Nat.mod_eq_of_lt (by omega)]
  · rw [hlenr, Nat.mod_eq_of_lt (by omega)]

/-- C1: row-block round trip.  For every schema with a positive row
stride and every sequence of well-formed rows appended in order via
AddRowToRowBlockPB into one block (whose indirect data stays below the
64-bit range, as it does on the original machine),
ExtractRowsFromRowBlockPB succeeds, appends exactly one Row View per
appended row in append order, and the per-column values seen through
the views equal the originals: non-null fixed-width cells bit for bit,
non-null string cells byte for byte, and null cells report null. -/
theorem C1_rowblock_roundtrip (schema : Schema) (rs : List SrcRow)
    (rows0 : List Nat)
    (hwf : ∀ r ∈ rs, wellFormedRow schema r = true)
    (hL : 0 < rowSize schema)
    (htot : (AddRowsToRowBlockPB schema rs ⟨[], []⟩).indirect_data.length
      < 2 ^ 64) :
    ExtractRowsFromRowBlockPB schema (AddRowsToRowBlockPB schema rs ⟨[], []⟩)
        rows0
      = (Status.OK, AddRowsToRowBlockPB schema rs ⟨[], []⟩,
         rows0 ++ (List.range rs.length).map (fun j => j * rowSize schema)) ∧
    (List.range rs.length).map (fun j =>
        rowCells schema (AddRowsToRowBlockPB schema rs ⟨[], []⟩).rows
          (AddRowsToRowBlockPB schema rs ⟨[], []⟩).indirect_data
          (j * rowSize schema))
      = rs.map (fun r => rowCells schema r.bytes r.mem 0) := by
  have hlens : ∀ r ∈ rs, r.bytes.length = rowSize schema :=
    fun r hr => (wellFormedRow_unpack (hwf r hr)).1
  have hpb : AddRowsToRowBlockPB schema rs ⟨[], []⟩
      = ⟨(encRegions schema rs 0).1.flatten,
         (encRegions schema rs 0).2.flatten⟩ := by
    rw [AddRowsToRowBlockPB_eq schema rs _ hlens]
    simp
  rw [hpb] at htot ⊢
  have hBlen : ((encRegions schema rs 0).1.flatten).length
      = rs.length * rowSize schema := by
    rw [flatten_length_uniform (rowSize schema) _
      (encRegions_fst_lengths schema rs 0 hlens), encRegions_count]
  have hmod : ((encRegions schema rs 0).1.flatten).length
      % rowSize schema = 0 := by
    rw [hBlen]
    exact Nat.mul_mod_left _ _
  have hnum : ((encRegions schema rs 0).1.flatten).length / rowSize schema
      = rs.length := by
    rw [hBlen]
    exact Nat.mul_div_cancel _ hL
  have h256 := (encRegions_bytes_lt schema rs 0 hwf).1
  have hnotbad := regions_not_bad schema rs hwf htot
  have hfix : fixColumns schema ((encRegions schema rs 0).2.flatten).length
        (((encRegions schema rs 0).1.flatten).length / rowSize schema)
        (List.range schema.columns.length)
        ((encRegions schema rs 0).1.flatten)
      = ((encRegions schema rs 0).1.flatten, none) :=
    fixColumns_all_good schema h256 _ hmod _
      (fun x hx => List.mem_range.mp hx)
      (fun x hx jj hjj => hnotbad jj x (by rw [hnum] at hjj; exact hjj)
        (List.mem_range.mp hx))
  constructor
  · unfold ExtractRowsFromRowBlockPB
    dsimp only
    rw [if_neg (show ¬ ((encRegions schema rs 0).1.flatten.length
        % rowSize schema ≠ 0) from by rw [hmod]; simp), hfix, hnum]
  · have hrhs : rs.map (fun r => rowCells schema r.bytes r.mem 0)
        = (List.range rs.length).map (fun j =>
            rowCells schema (rs.getD j default).bytes
              (rs.getD j default).mem 0) :=
      (range_map_getD rs default
        (fun r => rowCells schema r.bytes r.mem 0)).symm
    rw [hrhs]
    apply List.map_congr_left
    intro j hjm
    have hj : j < rs.length := List.mem_range.mp hjm
    unfold rowCells
    apply List.map_congr_left
    intro i him
    have hi : i < schema.columns.length := List.mem_range.mp him
    unfold readCell
    dsimp only
    simp only [Nat.zero_add]
    by_cases hnn : ((colAt schema i).is_nullable
        && isNullAt schema (rs.getD j default).bytes 0 i) = true
    · have hnul : (colAt schema i).is_nullable = true := by
        rw [Bool.and_eq_true] at hnn
        exact hnn.1
      rw [regions_isNull schema rs 0 j i hj hlens hi hnul]
      rw [if_pos hnn, if_pos hnn]
    · have hcondB : ((colAt schema i).is_nullable
          && isNullAt schema ((encRegions schema rs 0).1.flatten)
            (j * rowSize schema) i) = false := by
        by_cases hnul : (colAt schema i).is_nullable = true
        · rw [regions_isNull schema rs 0 j i hj hlens hi hnul]
          simpa using hnn
        · rw [show (colAt schema i).is_nullable = false from by
            simpa using hnul]
          rfl
      rw [if_neg (by rw [hcondB]; simp), if_neg hnn]
      by_cases hstr : (colAt schema i).type = DataType.STRING
      · rw [if_pos hstr, if_pos hstr]
        obtain ⟨hOFF, hLEN⟩ :=
          regions_descriptor schema rs hwf htot hj hi hstr hnn
        rw [hOFF, hLEN]
        have hp := regions_payload_at schema rs [] j i hj hwf hi hstr hnn
        simp only [List.nil_append, List.length_nil] at hp
        rw [hp]
      · rw [if_neg hstr, if_neg hstr]
        have hslot := regions_slot schema rs 0 j i hj hlens hi
        unfold encSlotAt at hslot
        rw [if_neg hnn, if_neg hstr] at hslot
        rw [hslot]

/-- The three-column schema of the round-trip unit test: two string
columns, one nullable uint32 column, one key column. -/
def roundTripSchema : Schema :=
  ⟨[⟨"col1", .STRING, false⟩, ⟨"col2", .STRING, false⟩,
    ⟨"col3", .UINT32, true⟩], 1⟩

/-- Two concrete source rows: the first with all columns set, the
second with the nullable column marked null over stale slot bytes. -/
def roundTripRows : List SrcRow :=
  [⟨[0] ++ natToLE 8 0 ++ natToLE 8 2 ++ natToLE 8 2 ++ natToLE 8 2
      ++ natToLE 4 5, [97, 98, 99, 100]⟩,
   ⟨[1] ++ natToLE 8 0 ++ natToLE 8 2 ++ natToLE 8 2 ++ natToLE 8 2
      ++ [7, 7, 7, 7], [101, 102, 103, 104]⟩]

/-- C1 witness: appending the two concrete rows and extracting them
back succeeds and reproduces both rows cell for cell. -/
theorem C1_rowblock_roundtrip_witness :
    ((∀ r ∈ roundTripRows, wellFormedRow roundTripSchema r = true) ∧
      0 < rowSize roundTripSchema ∧
      (AddRowsToRowBlockPB roundTripSchema roundTripRows
        ⟨[], []⟩).indirect_data.length < 2 ^ 64) ∧
    (ExtractRowsFromRowBlockPB roundTripSchema
        (AddRowsToRowBlockPB roundTripSchema roundTripRows ⟨[], []⟩) []
      = (Status.OK, AddRowsToRowBlockPB roundTripSchema roundTripRows ⟨[], []⟩,
         [] ++ (List.range roundTripRows.length).map
           (fun j => j * rowSize roundTripSchema)) ∧
      (List.range roundTripRows.length).map (fun j =>
          rowCells roundTripSchema
            (AddRowsToRowBlockPB roundTripSchema roundTripRows ⟨[], []⟩).rows
            (AddRowsToRowBlockPB roundTripSchema roundTripRows
              ⟨[], []⟩).indirect_data
            (j * rowSize roundTripSchema))
        = roundTripRows.map (fun r =>
            rowCells roundTripSchema r.bytes r.mem 0)) :=
  ⟨⟨by decide, by decide, by decide⟩,
    C1_rowblock_roundtrip roundTripSchema roundTripRows []
      (by decide) (by decide) (by decide)⟩

end KuduWire
